import Mathlib

/-!
Shallow embedding of the Daksk investment-platform backend (plan lifecycle
and ledger engine), translated from the JavaScript sources:
plansController.js (activatePlan, upgradePlan, collectDailyProfit,
renewPlan, createPlan), userController.js (registerUser,
createDepositRequest, createWithdrawalRequest), adminController.js
(approveDeposit, rejectDeposit, approveWithdrawal, rejectWithdrawal),
models.js (schemas and defaults).

Modelling conventions:
* Monetary values are rationals; JavaScript numeric arithmetic on these
  code paths is modelled exactly.
* Dates are integers (milliseconds since epoch).  The JavaScript
  endDate.setDate(startDate.getDate() + durationDays) calendar step is
  modelled as startDate + durationDays * msPerDay.
* MongoDB ObjectIds and the 5-digit public userIds are collapsed into a
  single natural-number id per document; all collections draw fresh ids
  from a shared counter (DB.nextId), mirroring ObjectId uniqueness.
* The structured transactionDetails payload is modelled by its two
  numeric fields (fee, totalDeducted) that the withdrawal flow stores;
  proof images / destination strings carry no logic and are dropped.
* Each controller is a pure function from a database value to an updated
  database value paired with an Except result; a thrown error before any
  save leaves the database unchanged, exactly as in the source.
-/

namespace Daksk

inductive YieldType
  | fixed
  | percentage
deriving DecidableEq, Repr

inductive InstStatus
  | active
  | expired
deriving DecidableEq, Repr

inductive TxType
  | deposit
  | withdrawal
  | investment
  | collection
  | commission
  | welcome_bonus
deriving DecidableEq, Repr

inductive TxStatus
  | pending
  | approved
  | rejected
deriving DecidableEq, Repr

inductive Err
  | userNotFound
  | alreadyHasActivePlan
  | planNotFound
  | amountOutOfRange
  | insufficientFunds
  | noActivePlan
  | planExpired
  | collectionNotYetAvailable
  | notAnUpgrade
  | instanceNotFound
  | notExpired
  | invalidTransaction
  | invalidPlanData
  | needActivatedPlan
  | needDeposit
  | invalidAmount
deriving DecidableEq, Repr

/-- PlanSchema of models.js: an admin-authored plan template. -/
structure Plan where
  id : Nat
  minAmount : Rat
  maxAmount : Rat
  dailyYieldType : YieldType
  dailyYieldValue : Rat
  durationDays : Nat
deriving DecidableEq, Repr

/-- PlanInstanceSchema of models.js: one concrete activation of a plan. -/
structure PlanInstance where
  id : Nat
  user : Nat
  plan : Nat
  investedAmount : Rat
  dailyProfit : Rat
  startDate : Int
  endDate : Int
  lastCollectedDate : Option Int
  totalCollected : Rat
  status : InstStatus
deriving DecidableEq, Repr

/-- UserSchema of models.js, restricted to the fields the plan/ledger
engine reads or writes. -/
structure User where
  id : Nat
  walletBalance : Rat
  bonusBalance : Rat
  invitedBy : Option Nat
  activePlanInstance : Option Nat
  hasDeposited : Bool
  hasActivatedPlan : Bool
deriving DecidableEq, Repr

/-- TransactionSchema of models.js.  The fee and totalDeducted fields
model the numeric part of the transactionDetails payload written by
createWithdrawalRequest. -/
structure Transaction where
  id : Nat
  user : Nat
  type : TxType
  amount : Rat
  status : TxStatus
  fee : Option Rat
  totalDeducted : Option Rat
deriving DecidableEq, Repr

/-- SettingsSchema of models.js (main_settings document). -/
structure Settings where
  welcomeBonus : Rat
  referralCommissionRate : Rat
  dailyCommissionRate : Rat
  depositMin : Rat
  depositMax : Rat
  withdrawalMin : Rat
  withdrawalMax : Rat
  withdrawalFee : Rat
deriving DecidableEq, Repr

/-- Schema defaults of SettingsSchema in models.js. -/
def defaultSettings : Settings :=
  { welcomeBonus := 50
    referralCommissionRate := 30
    dailyCommissionRate := 15
    depositMin := 50
    depositMax := 25000
    withdrawalMin := 100
    withdrawalMax := 25000
    withdrawalFee := 3 }

/-- The whole persistent state: the MongoDB collections the engine
touches, the settings singleton, and a fresh-id counter. -/
structure DB where
  users : List User
  plans : List Plan
  instances : List PlanInstance
  transactions : List Transaction
  settings : Settings
  nextId : Nat
deriving DecidableEq, Repr

def initDB (s : Settings) : DB :=
  { users := [], plans := [], instances := [], transactions := []
    settings := s, nextId := 0 }

def msPerDay : Int := 24 * 60 * 60 * 1000

/-- Model of User.findById. -/
def findUser (db : DB) (uid : Nat) : Option User :=
  db.users.find? (fun u => u.id == uid)

/-- Model of Plan.findById. -/
def findPlan (db : DB) (pid : Nat) : Option Plan :=
  db.plans.find? (fun p => p.id == pid)

/-- Model of PlanInstance.findById / populate of activePlanInstance. -/
def findInstance (db : DB) (iid : Nat) : Option PlanInstance :=
  db.instances.find? (fun i => i.id == iid)

/-- Model of Transaction.findById. -/
def findTx (db : DB) (tid : Nat) : Option Transaction :=
  db.transactions.find? (fun t => t.id == tid)

/-- Model of user.save(): writes the document back by id. -/
def saveUser (db : DB) (u : User) : DB :=
  { db with users := db.users.map (fun v => if v.id == u.id then u else v) }

/-- Model of planInstance.save(). -/
def saveInstance (db : DB) (i : PlanInstance) : DB :=
  { db with instances :=
      db.instances.map (fun j => if j.id == i.id then i else j) }

/-- Model of transaction.save(). -/
def saveTx (db : DB) (t : Transaction) : DB :=
  { db with transactions :=
      db.transactions.map (fun s => if s.id == t.id then t else s) }

/-- Model of Transaction.create: appends a ledger entry with a fresh id. -/
def addTx (db : DB) (uid : Nat) (ty : TxType) (amount : Rat)
    (st : TxStatus) (fee totalDeducted : Option Rat) : DB :=
  { db with
      transactions := db.transactions ++
        [{ id := db.nextId, user := uid, type := ty, amount := amount
           status := st, fee := fee, totalDeducted := totalDeducted }]
      nextId := db.nextId + 1 }

/-- registerUser of userController.js, restricted to the ledger-relevant
effects: creates the account with zero balances, resolves the inviter
(falling back to no inviter when the given id does not exist), credits
the welcome bonus to bonusBalance and appends an approved welcome_bonus
ledger entry. -/
def registerUser (invitedById : Option Nat) (db : DB) :
    DB × Except Err Unit :=
  let invitedBy : Option Nat :=
    match invitedById with
    | none => none
    | some rid => if (findUser db rid).isSome then some rid else none
  let uid := db.nextId
  let user : User :=
    { id := uid, walletBalance := 0
      bonusBalance := 0 + db.settings.welcomeBonus
      invitedBy := invitedBy, activePlanInstance := none
      hasDeposited := false, hasActivatedPlan := false }
  let db1 : DB :=
    { db with users := db.users ++ [user], nextId := db.nextId + 1 }
  (addTx db1 uid .welcome_bonus db.settings.welcomeBonus .approved
    none none, .ok ())

/-- createPlan of plansController.js: validates the numeric fields and
appends the plan template. -/
def createPlan (minA maxA yieldV : Rat) (yty : YieldType) (dur : Nat)
    (db : DB) : DB × Except Err Unit :=
  if minA ≤ 0 ∨ maxA ≤ 0 ∨ yieldV ≤ 0 ∨ dur = 0 then
    (db, .error .invalidPlanData)
  else if minA > maxA then (db, .error .invalidPlanData)
  else if yty = .percentage ∧ yieldV > 100 then
    (db, .error .invalidPlanData)
  else
    ({ db with
        plans := db.plans ++
          [{ id := db.nextId, minAmount := minA, maxAmount := maxA
             dailyYieldType := yty, dailyYieldValue := yieldV
             durationDays := dur }]
        nextId := db.nextId + 1 }, .ok ())

/-- createDepositRequest of userController.js: validates the amount
against the settings bounds and appends a pending deposit entry. -/
def createDepositRequest (uid : Nat) (amount : Rat) (db : DB) :
    DB × Except Err Unit :=
  match findUser db uid with
  | none => (db, .error .userNotFound)
  | some _ =>
    if amount ≤ 0 then (db, .error .invalidAmount)
    else if amount < db.settings.depositMin ∨
        amount > db.settings.depositMax then
      (db, .error .amountOutOfRange)
    else (addTx db uid .deposit amount .pending none none, .ok ())

/-- approveDeposit of adminController.js: credits the stored amount to
walletBalance, sets hasDeposited and flips the entry to approved. -/
def approveDeposit (tid : Nat) (db : DB) : DB × Except Err Unit :=
  match findTx db tid with
  | none => (db, .error .invalidTransaction)
  | some tx =>
    if tx.type ≠ .deposit ∨ tx.status ≠ .pending then
      (db, .error .invalidTransaction)
    else
      match findUser db tx.user with
      | none => (db, .error .userNotFound)
      | some user =>
        let db1 := saveUser db
          { user with walletBalance := user.walletBalance + tx.amount
                      hasDeposited := true }
        (saveTx db1 { tx with status := .approved }, .ok ())

/-- rejectDeposit of adminController.js. -/
def rejectDeposit (tid : Nat) (db : DB) : DB × Except Err Unit :=
  match findTx db tid with
  | none => (db, .error .invalidTransaction)
  | some tx =>
    if tx.type ≠ .deposit ∨ tx.status ≠ .pending then
      (db, .error .invalidTransaction)
    else (saveTx db { tx with status := .rejected }, .ok ())

/-- createWithdrawalRequest of userController.js: validates amount and
eligibility, computes fee = amount * withdrawalFee / 100 and
totalDeducted = amount + fee, requires totalDeducted ≤ walletBalance and
appends a pending withdrawal entry with amount := -amount carrying fee
and totalDeducted in its details payload.  No balance is touched at
request time. -/
def createWithdrawalRequest (uid : Nat) (amount : Rat) (db : DB) :
    DB × Except Err Unit :=
  match findUser db uid with
  | none => (db, .error .userNotFound)
  | some user =>
    if amount ≤ 0 then (db, .error .invalidAmount)
    else if amount < db.settings.withdrawalMin ∨
        amount > db.settings.withdrawalMax then
      (db, .error .amountOutOfRange)
    else if user.activePlanInstance = none ∧ user.hasActivatedPlan = false
      then (db, .error .needActivatedPlan)
    else if user.hasDeposited = false then (db, .error .needDeposit)
    else
      let fee := amount * db.settings.withdrawalFee / 100
      let totalDeducted := amount + fee
      if totalDeducted > user.walletBalance then
        (db, .error .insufficientFunds)
      else
        (addTx db uid .withdrawal (-amount) .pending (some fee)
          (some totalDeducted), .ok ())

/-- approveWithdrawal of adminController.js, verbatim control flow: if
walletBalance < transaction.amount the entry is flipped to rejected,
otherwise walletBalance -= transaction.amount is applied (the stored
amount, which createWithdrawalRequest made negative) and the entry is
approved.  The totalDeducted detail is never read here. -/
def approveWithdrawal (tid : Nat) (db : DB) : DB × Except Err Unit :=
  match findTx db tid with
  | none => (db, .error .invalidTransaction)
  | some tx =>
    if tx.type ≠ .withdrawal ∨ tx.status ≠ .pending then
      (db, .error .invalidTransaction)
    else
      match findUser db tx.user with
      | none => (db, .error .userNotFound)
      | some user =>
        if user.walletBalance < tx.amount then
          (saveTx db { tx with status := .rejected },
            .error .insufficientFunds)
        else
          let db1 := saveUser db
            { user with walletBalance := user.walletBalance - tx.amount }
          (saveTx db1 { tx with status := .approved }, .ok ())

/-- rejectWithdrawal of adminController.js. -/
def rejectWithdrawal (tid : Nat) (db : DB) : DB × Except Err Unit :=
  match findTx db tid with
  | none => (db, .error .invalidTransaction)
  | some tx =>
    if tx.type ≠ .withdrawal ∨ tx.status ≠ .pending then
      (db, .error .invalidTransaction)
    else (saveTx db { tx with status := .rejected }, .ok ())

/-- The referral-commission side effect shared by activatePlan and
collectDailyProfit: if the referrer account exists, credit the computed
commission to its walletBalance and append an approved commission ledger
entry on the referrer; if not, do nothing.  The commission amount is
computed by the caller (base * rate / 100 with the respective rate). -/
def payCommission (rid : Nat) (commission : Rat) (db : DB) : DB :=
  match findUser db rid with
  | none => db
  | some referrer =>
    addTx (saveUser db { referrer with
      walletBalance := referrer.walletBalance + commission })
      rid .commission commission .approved none none

/-- The bonus-first spend-down computation of activatePlan (lines 71-82
of plansController.js): bonus is consumed first, up to the full invested
amount. -/
def bonusAmountUsedFor (u : User) (amount : Rat) : Rat :=
  if u.bonusBalance > 0 then
    (if u.bonusBalance ≥ amount then amount else u.bonusBalance)
  else 0

/-- Daily profit snapshot, as computed at activation sites in
plansController.js. -/
def computeDailyProfit (yty : YieldType) (yieldV base : Rat) : Rat :=
  match yty with
  | .fixed => yieldV
  | .percentage => base * yieldV / 100

/-- The PlanInstance.create payload shared by activatePlan, upgradePlan
and renewPlan: a fresh active instance with no collection history whose
end date lies durationDays days after the start date. -/
def newInstanceFor (idv uidv pidv : Nat) (amount dailyProfit : Rat)
    (now : Int) (dur : Nat) : PlanInstance :=
  { id := idv, user := uidv, plan := pidv, investedAmount := amount
    dailyProfit := dailyProfit, startDate := now
    endDate := now + dur * msPerDay
    lastCollectedDate := none, totalCollected := 0, status := .active }

/-- activatePlan of plansController.js: one-active-plan check, amount
range check, bonus-first spend-down, instance creation, investment
ledger entry for the full amount, then activation referral commission. -/
def activatePlan (uid pid : Nat) (amount : Rat) (now : Int) (db : DB) :
    DB × Except Err Unit :=
  match findUser db uid with
  | none => (db, .error .userNotFound)
  | some user =>
    if user.activePlanInstance.isSome then
      (db, .error .alreadyHasActivePlan)
    else
      match findPlan db pid with
      | none => (db, .error .planNotFound)
      | some plan =>
        if amount < plan.minAmount ∨ amount > plan.maxAmount then
          (db, .error .amountOutOfRange)
        else
          let bonusAmountUsed : Rat := bonusAmountUsedFor user amount
          let realAmountToPay := amount - bonusAmountUsed
          if user.walletBalance < realAmountToPay then
            (db, .error .insufficientFunds)
          else
            let dailyProfit :=
              computeDailyProfit plan.dailyYieldType plan.dailyYieldValue
                amount
            let inst : PlanInstance :=
              newInstanceFor db.nextId uid pid amount dailyProfit now
                plan.durationDays
            let db1 : DB :=
              { db with instances := db.instances ++ [inst]
                        nextId := db.nextId + 1 }
            let db2 := saveUser db1
              { user with
                  walletBalance := user.walletBalance - realAmountToPay
                  bonusBalance := user.bonusBalance - bonusAmountUsed
                  hasActivatedPlan := true
                  activePlanInstance := some inst.id }
            let db3 := addTx db2 uid .investment (-amount) .approved
              none none
            match user.invitedBy with
            | none => (db3, .ok ())
            | some rid =>
              (payCommission rid
                (amount * (db.settings.referralCommissionRate / 100)) db3,
                .ok ())

/-- upgradePlan of plansController.js: strict template-floor comparison,
wallet-only price difference, expires the old instance, creates a fresh
instance at the new floor and logs the difference as investment. -/
def upgradePlan (uid newPid : Nat) (now : Int) (db : DB) :
    DB × Except Err Unit :=
  match findUser db uid with
  | none => (db, .error .userNotFound)
  | some user =>
    match user.activePlanInstance with
    | none => (db, .error .noActivePlan)
    | some iid =>
      match findInstance db iid with
      | none => (db, .error .noActivePlan)
      | some oldInst =>
        match findPlan db newPid with
        | none => (db, .error .planNotFound)
        | some newPlan =>
          match findPlan db oldInst.plan with
          | none => (db, .error .planNotFound)
          | some oldPlan =>
            if newPlan.minAmount ≤ oldPlan.minAmount then
              (db, .error .notAnUpgrade)
            else
              let priceDifference := newPlan.minAmount - oldPlan.minAmount
              if user.walletBalance < priceDifference then
                (db, .error .insufficientFunds)
              else
                let db1 := saveInstance db
                  { oldInst with status := .expired }
                let dailyProfit :=
                  computeDailyProfit newPlan.dailyYieldType
                    newPlan.dailyYieldValue newPlan.minAmount
                let inst : PlanInstance :=
                  newInstanceFor db1.nextId uid newPid newPlan.minAmount
                    dailyProfit now newPlan.durationDays
                let db2 : DB :=
                  { db1 with instances := db1.instances ++ [inst]
                             nextId := db1.nextId + 1 }
                let db3 := saveUser db2
                  { user with
                      walletBalance :=
                        user.walletBalance - priceDifference
                      activePlanInstance := some inst.id }
                (addTx db3 uid .investment (-priceDifference) .approved
                  none none, .ok ())

/-- The 24-hour-window gate of collectDailyProfit: collection is allowed
on the first-ever collection (lastCollectedDate null) or when at least
24 hours have elapsed since the last collection. -/
def canCollectAt (inst : PlanInstance) (now : Int) : Bool :=
  match inst.lastCollectedDate with
  | none => true
  | some last => decide (now - last ≥ msPerDay)

/-- collectDailyProfit of plansController.js: lazy expiry transition
(persisted before throwing), 24-hour window check, profit credit,
instance bookkeeping, collection ledger entry and ungated daily referral
commission. -/
def collectDailyProfit (uid : Nat) (now : Int) (db : DB) :
    DB × Except Err Unit :=
  match findUser db uid with
  | none => (db, .error .userNotFound)
  | some user =>
    match user.activePlanInstance with
    | none => (db, .error .noActivePlan)
    | some iid =>
      match findInstance db iid with
      | none => (db, .error .noActivePlan)
      | some inst =>
        if now > inst.endDate then
          let db1 := saveInstance db { inst with status := .expired }
          let db2 := saveUser db1 { user with activePlanInstance := none }
          (db2, .error .planExpired)
        else
          if canCollectAt inst now = false then
            (db, .error .collectionNotYetAvailable)
          else
            let profit := inst.dailyProfit
            let db1 := saveUser db
              { user with walletBalance := user.walletBalance + profit }
            let db2 := saveInstance db1
              { inst with lastCollectedDate := some now
                          totalCollected := inst.totalCollected + profit }
            let db3 := addTx db2 uid .collection profit .approved
              none none
            match user.invitedBy with
            | none => (db3, .ok ())
            | some rid =>
              (payCommission rid
                (profit * (db.settings.dailyCommissionRate / 100)) db3,
                .ok ())

/-- renewPlan of plansController.js: only the owner's expired instance,
only with no current active plan; charges the template floor from the
wallet and creates a brand-new instance, leaving the old one untouched. -/
def renewPlan (uid iid : Nat) (now : Int) (db : DB) :
    DB × Except Err Unit :=
  match findUser db uid with
  | none => (db, .error .userNotFound)
  | some user =>
    match findInstance db iid with
    | none => (db, .error .instanceNotFound)
    | some oldInst =>
      if oldInst.user ≠ uid then (db, .error .instanceNotFound)
      else if oldInst.status ≠ .expired then (db, .error .notExpired)
      else if user.activePlanInstance.isSome then
        (db, .error .alreadyHasActivePlan)
      else
        match findPlan db oldInst.plan with
        | none => (db, .error .planNotFound)
        | some plan =>
          let renewalCost := plan.minAmount
          if user.walletBalance < renewalCost then
            (db, .error .insufficientFunds)
          else
            let dailyProfit :=
              computeDailyProfit plan.dailyYieldType plan.dailyYieldValue
                renewalCost
            let inst : PlanInstance :=
              newInstanceFor db.nextId uid oldInst.plan renewalCost
                dailyProfit now plan.durationDays
            let db1 : DB :=
              { db with instances := db.instances ++ [inst]
                        nextId := db.nextId + 1 }
            let db2 := saveUser db1
              { user with
                  walletBalance := user.walletBalance - renewalCost
                  hasActivatedPlan := true
                  activePlanInstance := some inst.id }
            (addTx db2 uid .investment (-renewalCost) .approved
              none none, .ok ())

/-- One top-level request against the engine, with its arguments.  The
time-dependent operations carry the wall-clock instant at which the
request is processed. -/
inductive Cmd
  | register (invitedById : Option Nat)
  | newPlan (minA maxA yieldV : Rat) (yty : YieldType) (dur : Nat)
  | depositRequest (uid : Nat) (amount : Rat)
  | depositApprove (tid : Nat)
  | depositReject (tid : Nat)
  | withdrawRequest (uid : Nat) (amount : Rat)
  | withdrawApprove (tid : Nat)
  | withdrawReject (tid : Nat)
  | activate (uid pid : Nat) (amount : Rat) (now : Int)
  | collect (uid : Nat) (now : Int)
  | upgrade (uid newPid : Nat) (now : Int)
  | renew (uid iid : Nat) (now : Int)
deriving DecidableEq, Repr

/-- Runs one request and keeps whatever state it persisted (errors leave
the state they had already saved, as in the controllers). -/
def step (c : Cmd) (db : DB) : DB :=
  match c with
  | .register inv => (registerUser inv db).1
  | .newPlan a b v t d => (createPlan a b v t d db).1
  | .depositRequest u a => (createDepositRequest u a db).1
  | .depositApprove t => (approveDeposit t db).1
  | .depositReject t => (rejectDeposit t db).1
  | .withdrawRequest u a => (createWithdrawalRequest u a db).1
  | .withdrawApprove t => (approveWithdrawal t db).1
  | .withdrawReject t => (rejectWithdrawal t db).1
  | .activate u p a n => (activatePlan u p a n db).1
  | .collect u n => (collectDailyProfit u n db).1
  | .upgrade u p n => (upgradePlan u p n db).1
  | .renew u i n => (renewPlan u i n db).1

/-- State after serving a list of requests from an empty database. -/
def runTrace (s : Settings) (cs : List Cmd) : DB :=
  cs.foldl (fun db c => step c db) (initDB s)

/-- Contribution of one ledger entry to the balance formula exactly as
claim C3 words it: approved deposits count positively, approved
withdrawals count with their absolute value subtracted, collection,
commission and welcome_bonus count positively, investment entries
subtract the invested amount (their stored amount is already the
negated invested amount). -/
def claimContribution (t : Transaction) : Rat :=
  match t.type, t.status with
  | .deposit, .approved => t.amount
  | .deposit, _ => 0
  | .withdrawal, .approved => -|t.amount|
  | .withdrawal, _ => 0
  | .collection, _ => t.amount
  | .commission, _ => t.amount
  | .welcome_bonus, _ => t.amount
  | .investment, _ => t.amount

/-- Contribution of one ledger entry to the balance formula that the
code actually maintains: identical to claimContribution except that an
approved withdrawal is ADDED in absolute value, because approveWithdrawal
subtracts the stored negative amount. -/
def codeContribution (t : Transaction) : Rat :=
  match t.type, t.status with
  | .deposit, .approved => t.amount
  | .deposit, _ => 0
  | .withdrawal, .approved => |t.amount|
  | .withdrawal, _ => 0
  | .collection, _ => t.amount
  | .commission, _ => t.amount
  | .welcome_bonus, _ => t.amount
  | .investment, _ => t.amount

/-- Sum of a per-entry contribution over one account's ledger entries. -/
def ledgerSum (f : Transaction → Rat) (txs : List Transaction)
    (uid : Nat) : Rat :=
  (txs.map (fun t => if t.user == uid then f t else 0)).sum

/-- Wallet balance of an account, read off the database (zero when the
account does not exist). -/
def walletOf (db : DB) (uid : Nat) : Rat :=
  match findUser db uid with
  | none => 0
  | some u => u.walletBalance

/-- Bonus balance of an account, read off the database. -/
def bonusOf (db : DB) (uid : Nat) : Rat :=
  match findUser db uid with
  | none => 0
  | some u => u.bonusBalance

/-- Stored totalDeducted detail of a ledger entry, if any. -/
def totalDeductedOf (db : DB) (tid : Nat) : Option Rat :=
  match findTx db tid with
  | none => none
  | some t => t.totalDeducted

/-- Demonstration base trace: a user registers (account id 0,
welcome-bonus entry id 1), the admin creates a plan template (id 2),
the user requests a 1000 MT deposit (entry id 3) which is approved,
then activates the plan with 300 MT (instance id 4, investment entry
id 5, bonus 50 consumed first, 250 drawn from the wallet). -/
def baseTrace : List Cmd :=
  [ .register none
  , .newPlan 100 1000 10 .fixed 30
  , .depositRequest 0 1000
  , .depositApprove 3
  , .activate 0 2 300 0 ]

/-- Demonstration trace: after the base trace the user requests a
200 MT withdrawal (entry id 6, fee 6, totalDeducted 206). -/
def demoTrace : List Cmd := baseTrace ++ [.withdrawRequest 0 200]

/-- Demonstration trace where the withdrawal request is then approved. -/
def demoTraceApproved : List Cmd := demoTrace ++ [.withdrawApprove 6]

/-- Demonstration trace where, after the base trace, the user calls
collect once the plan instance's end date (30 days) has passed, driving
the lazy expiry transition. -/
def expiredTrace : List Cmd := baseTrace ++ [.collect 0 2592000001]

/-- Snapshot after the first command of baseTrace (register). -/
def base1 : DB :=
  { users := [{ id := 0, walletBalance := 0, bonusBalance := 50
                invitedBy := none, activePlanInstance := none
                hasDeposited := false, hasActivatedPlan := false }]
    plans := [], instances := []
    transactions := [{ id := 1, user := 0, type := .welcome_bonus
                       amount := 50, status := .approved, fee := none
                       totalDeducted := none }]
    settings := defaultSettings, nextId := 2 }

/-- Snapshot after the second command of baseTrace (plan creation). -/
def base2 : DB :=
  { base1 with
      plans := [{ id := 2, minAmount := 100, maxAmount := 1000
                  dailyYieldType := .fixed, dailyYieldValue := 10
                  durationDays := 30 }]
      nextId := 3 }

/-- Snapshot after the third command of baseTrace (deposit request). -/
def base3 : DB :=
  { base2 with
      transactions := base2.transactions ++
        [{ id := 3, user := 0, type := .deposit, amount := 1000
           status := .pending, fee := none, totalDeducted := none }]
      nextId := 4 }

/-- Snapshot after the fourth command of baseTrace (deposit approval). -/
def base4 : DB :=
  { base3 with
      users := [{ id := 0, walletBalance := 1000, bonusBalance := 50
                  invitedBy := none, activePlanInstance := none
                  hasDeposited := true, hasActivatedPlan := false }]
      transactions := [{ id := 1, user := 0, type := .welcome_bonus
                         amount := 50, status := .approved, fee := none
                         totalDeducted := none },
                       { id := 3, user := 0, type := .deposit
                         amount := 1000, status := .approved, fee := none
                         totalDeducted := none }] }

/-- Snapshot after the whole baseTrace (plan activated). -/
def base5 : DB :=
  { base4 with
      users := [{ id := 0, walletBalance := 750, bonusBalance := 0
                  invitedBy := none, activePlanInstance := some 4
                  hasDeposited := true, hasActivatedPlan := true }]
      instances := [{ id := 4, user := 0, plan := 2
                      investedAmount := 300, dailyProfit := 10
                      startDate := 0, endDate := 2592000000
                      lastCollectedDate := none, totalCollected := 0
                      status := .active }]
      transactions := base4.transactions ++
        [{ id := 5, user := 0, type := .investment, amount := -300
           status := .approved, fee := none, totalDeducted := none }]
      nextId := 6 }

/-- The demonstration state just before the withdrawal is approved. -/
def demoDB : DB := runTrace defaultSettings demoTrace

/-- Literal form of demoDB. -/
def demoDBLit : DB :=
  { base5 with
      transactions := base5.transactions ++
        [{ id := 6, user := 0, type := .withdrawal, amount := -200
           status := .pending, fee := some 6, totalDeducted := some 206 }]
      nextId := 7 }

/-- The demonstration state after the admin approves withdrawal entry 6. -/
def demoDBApproved : DB := runTrace defaultSettings demoTraceApproved

/-- Literal form of demoDBApproved: approveWithdrawal computed
walletBalance := 750 - (-200) = 950, so approving the 200 MT withdrawal
INCREASED the wallet by 200 instead of debiting the stored
totalDeducted of 206. -/
def demoDBApprovedLit : DB :=
  { demoDBLit with
      users := [{ id := 0, walletBalance := 950, bonusBalance := 0
                  invitedBy := none, activePlanInstance := some 4
                  hasDeposited := true, hasActivatedPlan := true }]
      transactions := base5.transactions ++
        [{ id := 6, user := 0, type := .withdrawal, amount := -200
           status := .approved, fee := some 6, totalDeducted := some 206 }] }

/-- State reached by expiredTrace. -/
def expiredDB : DB := runTrace defaultSettings expiredTrace

/-- Literal form of expiredDB: the collect call found the instance past
its end date, flipped it to expired and cleared the account's
activePlanInstance before failing; no profit was credited. -/
def expiredDBLit : DB :=
  { base5 with
      users := [{ id := 0, walletBalance := 750, bonusBalance := 0
                  invitedBy := none, activePlanInstance := none
                  hasDeposited := true, hasActivatedPlan := true }]
      instances := [{ id := 4, user := 0, plan := 2
                      investedAmount := 300, dailyProfit := 10
                      startDate := 0, endDate := 2592000000
                      lastCollectedDate := none, totalCollected := 0
                      status := .expired }] }

/-- Small hand-built state for single-operation witnesses: account 0
holds no active plan and is the inviter of account 1, whose active
instance 5 (daily profit 7) stems from plan 4; plans 2 and 3 are
further templates. -/
def wdb : DB :=
  { users :=
      [{ id := 0, walletBalance := 1000, bonusBalance := 40
         invitedBy := none, activePlanInstance := none
         hasDeposited := true, hasActivatedPlan := false },
       { id := 1, walletBalance := 500, bonusBalance := 0
         invitedBy := some 0, activePlanInstance := some 5
         hasDeposited := true, hasActivatedPlan := true }]
    plans :=
      [{ id := 2, minAmount := 100, maxAmount := 1000
         dailyYieldType := .fixed, dailyYieldValue := 10
         durationDays := 30 },
       { id := 3, minAmount := 300, maxAmount := 2000
         dailyYieldType := .percentage, dailyYieldValue := 5
         durationDays := 40 },
       { id := 4, minAmount := 100, maxAmount := 800
         dailyYieldType := .fixed, dailyYieldValue := 7
         durationDays := 40 }]
    instances :=
      [{ id := 5, user := 1, plan := 4, investedAmount := 100
         dailyProfit := 7, startDate := 0, endDate := 3456000000
         lastCollectedDate := none, totalCollected := 0
         status := .active }]
    transactions := []
    settings := defaultSettings
    nextId := 6 }

/-- The ledger-derivable balance property: every account's wallet plus
bonus balance equals the code-maintained contribution sum of its ledger
entries. -/
def LedgerBalanced (db : DB) : Prop :=
  ∀ u ∈ db.users,
    ledgerSum codeContribution db.transactions u.id =
      u.walletBalance + u.bonusBalance

/-- Bookkeeping facts maintained by every operation, used to prove that
LedgerBalanced is inductive: withdrawal entries store non-positive
amounts, ids are fresh and unique, and referenced user ids are in
range.  Stated over the user list, the ledger and the fresh-id counter
directly, so that every operation's result can be analysed by
projecting. -/
structure LedgerInvL (users : List User) (txs : List Transaction)
    (n : Nat) : Prop where
  balanced : ∀ u ∈ users,
    ledgerSum codeContribution txs u.id =
      u.walletBalance + u.bonusBalance
  wdNonpos : ∀ t ∈ txs, t.type = .withdrawal → t.amount ≤ 0
  txIdLt : ∀ t ∈ txs, t.id < n
  txDistinct : txs.Pairwise (fun a b => a.id ≠ b.id)
  txUserLt : ∀ t ∈ txs, t.user < n
  userIdLt : ∀ u ∈ users, u.id < n

/-- LedgerInvL instantiated on a database value. -/
def LedgerInv (db : DB) : Prop :=
  LedgerInvL db.users db.transactions db.nextId

/-- Non-negativity invariant: balances never go negative, plan templates
pass the createPlan validations that matter for sign reasoning, plan
instances carry non-negative daily profits, deposit entries store
non-negative amounts, and the configured bonus and commission rates are
non-negative. -/
structure NonnegInvL (users : List User) (plans : List Plan)
    (instances : List PlanInstance) (txs : List Transaction)
    (s : Settings) : Prop where
  wallet : ∀ u ∈ users, 0 ≤ u.walletBalance
  bonus : ∀ u ∈ users, 0 ≤ u.bonusBalance
  planPos : ∀ p ∈ plans, 0 < p.minAmount ∧ 0 < p.dailyYieldValue
  instProfit : ∀ i ∈ instances, 0 ≤ i.dailyProfit
  depNonneg : ∀ t ∈ txs, t.type = .deposit → 0 ≤ t.amount
  rates : 0 ≤ s.welcomeBonus ∧ 0 ≤ s.referralCommissionRate ∧
    0 ≤ s.dailyCommissionRate

/-- NonnegInvL instantiated on a database value. -/
def NonnegInv (db : DB) : Prop :=
  NonnegInvL db.users db.plans db.instances db.transactions db.settings

/-- Plan-instance id discipline: ids are below the fresh-id counter and
pairwise distinct. -/
structure InstIdInvL (instances : List PlanInstance) (n : Nat) : Prop where
  lt : ∀ i ∈ instances, i.id < n
  distinct : instances.Pairwise (fun a b => a.id ≠ b.id)

/-- InstIdInvL instantiated on a database value. -/
def InstIdInv (db : DB) : Prop :=
  InstIdInvL db.instances db.nextId

/-- Active plan reference of an account, read off the database. -/
def activePlanOf (db : DB) (uid : Nat) : Option Nat :=
  match findUser db uid with
  | none => none
  | some u => u.activePlanInstance

/-! Evaluation lemmas for the demonstration traces. -/

theorem base1_eq : step (.register none) (initDB defaultSettings) = base1 := by
  norm_num [step, registerUser, findUser, addTx, initDB, defaultSettings, base1]

theorem base2_eq : step (.newPlan 100 1000 10 .fixed 30) base1 = base2 := by
  norm_num [step, createPlan, base1, base2, defaultSettings]

theorem base3_eq : step (.depositRequest 0 1000) base2 = base3 := by
  norm_num [step, createDepositRequest, findUser, addTx, base1, base2, base3,
    defaultSettings]

theorem base4_eq : step (.depositApprove 3) base3 = base4 := by
  norm_num [step, approveDeposit, findTx, findUser, saveUser, saveTx, base1,
    base2, base3, base4, defaultSettings]

theorem base5_eq : step (.activate 0 2 300 0) base4 = base5 := by
  norm_num [step, activatePlan, bonusAmountUsedFor, newInstanceFor,
    findUser, findPlan, saveUser, addTx, computeDailyProfit, msPerDay,
    base1, base2, base3, base4, base5, defaultSettings]

theorem base5_run : runTrace defaultSettings baseTrace = base5 := by
  have h : baseTrace = [Cmd.register none, .newPlan 100 1000 10 .fixed 30,
      .depositRequest 0 1000, .depositApprove 3, .activate 0 2 300 0] := rfl
  rw [h]
  simp only [runTrace, List.foldl_cons, List.foldl_nil]
  rw [base1_eq, base2_eq, base3_eq, base4_eq, base5_eq]

theorem demoDB_eq : demoDB = demoDBLit := by
  rw [demoDB, demoTrace, runTrace, List.foldl_append]
  rw [show List.foldl (fun db c => step c db) (initDB defaultSettings)
      baseTrace = runTrace defaultSettings baseTrace from rfl]
  rw [base5_run]
  simp only [List.foldl_cons, List.foldl_nil]
  norm_num [step, createWithdrawalRequest, findUser, addTx,
    base1, base2, base3, base4, base5, demoDBLit, defaultSettings]

theorem demoDBApproved_eq : demoDBApproved = demoDBApprovedLit := by
  rw [demoDBApproved, demoTraceApproved, runTrace, List.foldl_append]
  rw [show List.foldl (fun db c => step c db) (initDB defaultSettings)
      demoTrace = runTrace defaultSettings demoTrace from rfl]
  rw [show runTrace defaultSettings demoTrace = demoDBLit from demoDB_eq]
  simp only [List.foldl_cons, List.foldl_nil]
  norm_num [step, approveWithdrawal, findTx, findUser, saveUser, saveTx,
    base1, base2, base3, base4, base5, demoDBLit, demoDBApprovedLit,
    defaultSettings]

theorem expiredDB_eq : expiredDB = expiredDBLit := by
  rw [expiredDB, expiredTrace, runTrace, List.foldl_append]
  rw [show List.foldl (fun db c => step c db) (initDB defaultSettings)
      baseTrace = runTrace defaultSettings baseTrace from rfl]
  rw [base5_run]
  simp only [List.foldl_cons, List.foldl_nil]
  norm_num [step, collectDailyProfit, findUser, findInstance, saveUser,
    saveInstance, canCollectAt, msPerDay, base1, base2, base3, base4, base5,
    expiredDBLit, defaultSettings]

/-- C2: when the admin approves the pending 200 MT withdrawal whose
request-time ledger entry stores totalDeducted = 206, the code applies
walletBalance := walletBalance - storedAmount with storedAmount = -200,
so the wallet moves from 750 to 950: the stored totalDeducted figure is
never read back and the account is credited instead of debited.  This
contradicts the claim (and the request-time guard, which reserved
totalDeducted), exhibiting the divergence at a concrete input. -/
theorem C2_approval_ignores_totalDeducted :
    totalDeductedOf demoDB 6 = some 206 ∧
    walletOf demoDB 0 = 750 ∧
    (approveWithdrawal 6 demoDB).2 = .ok () ∧
    walletOf (approveWithdrawal 6 demoDB).1 0 = 950 ∧
    walletOf (approveWithdrawal 6 demoDB).1 0 ≠ walletOf demoDB 0 - 206 := by
  rw [demoDB_eq]
  norm_num [totalDeductedOf, walletOf, findTx, findUser, approveWithdrawal,
    saveUser, saveTx, demoDBLit, base1, base2, base3, base4, base5,
    defaultSettings]

/-- C3 counterexample: in the reachable state demoDBApproved the
claim-stated formula (deposits minus absolute approved withdrawals plus
collection, commission and welcome_bonus minus investments) yields 550
for account 0, but the account's walletBalance is 950, so the claimed
round-trip fails on the code. -/
theorem C3_counterexample :
    ledgerSum claimContribution demoDBApproved.transactions 0 = 550 ∧
    walletOf demoDBApproved 0 = 950 ∧
    ledgerSum claimContribution demoDBApproved.transactions 0 ≠
      walletOf demoDBApproved 0 := by
  rw [demoDBApproved_eq]
  norm_num [ledgerSum, claimContribution, walletOf, findUser,
    demoDBApprovedLit, demoDBLit, base1, base2, base3, base4, base5,
    defaultSettings]

/-- C1 counterexample: in state wdb the referrer (account 0) holds no
active plan instance, yet account 1's successful collection credits the
referrer with 7 * 15 / 100 = 21/20 and appends a commission ledger
entry for the referrer, contradicting the claim that no commission is
credited when the referrer has no active plan. -/
theorem C1_counterexample :
    activePlanOf wdb 0 = none ∧
    walletOf wdb 0 = 1000 ∧
    (collectDailyProfit 1 100 wdb).2 = .ok () ∧
    walletOf (collectDailyProfit 1 100 wdb).1 0 = 1000 + 21/20 ∧
    (collectDailyProfit 1 100 wdb).1.transactions =
      [{ id := 6, user := 1, type := .collection, amount := 7
         status := .approved, fee := none, totalDeducted := none },
       { id := 7, user := 0, type := .commission, amount := 21/20
         status := .approved, fee := none, totalDeducted := none }] := by
  norm_num [activePlanOf, walletOf, findUser, findInstance, saveUser,
    saveInstance, addTx, collectDailyProfit, canCollectAt, payCommission,
    msPerDay, wdb, defaultSettings]

/-! Generic lookup and update lemmas. -/

theorem find?_map_key {α : Type} (key : α → Nat) (w : α) (k : Nat)
    (l : List α) :
    (l.map (fun v => if key v == key w then w else v)).find?
      (fun v => key v == k) =
    (l.find? (fun v => key v == k)).map
      (fun v => if key v == key w then w else v) := by
  induction l with
  | nil => rfl
  | cons a l ih =>
    have hid : key (if key a == key w then w else a) = key a := by
      split
      next h => exact (beq_iff_eq.mp h).symm
      next => rfl
    simp only [List.map_cons, List.find?_cons]
    rw [hid]
    cases hk : (key a == k)
    · simp only [hk]
      exact ih
    · simp only [hk]
      rfl

theorem findUser_id {db : DB} {uid : Nat} {u : User}
    (h : findUser db uid = some u) : u.id = uid := by
  simpa using List.find?_some h

theorem findUser_mem {db : DB} {uid : Nat} {u : User}
    (h : findUser db uid = some u) : u ∈ db.users :=
  List.mem_of_find?_eq_some h

theorem findInstance_id {db : DB} {iid : Nat} {i : PlanInstance}
    (h : findInstance db iid = some i) : i.id = iid := by
  simpa using List.find?_some h

theorem findInstance_mem {db : DB} {iid : Nat} {i : PlanInstance}
    (h : findInstance db iid = some i) : i ∈ db.instances :=
  List.mem_of_find?_eq_some h

theorem findTx_id {db : DB} {tid : Nat} {t : Transaction}
    (h : findTx db tid = some t) : t.id = tid := by
  simpa using List.find?_some h

theorem findTx_mem {db : DB} {tid : Nat} {t : Transaction}
    (h : findTx db tid = some t) : t ∈ db.transactions :=
  List.mem_of_find?_eq_some h

theorem findPlan_mem {db : DB} {pid : Nat} {p : Plan}
    (h : findPlan db pid = some p) : p ∈ db.plans :=
  List.mem_of_find?_eq_some h

theorem findUser_saveUser (db : DB) (w : User) (k : Nat) :
    findUser (saveUser db w) k =
      (findUser db k).map (fun v => if v.id == w.id then w else v) :=
  find?_map_key User.id w k db.users

theorem findInstance_saveInstance (db : DB) (w : PlanInstance) (k : Nat) :
    findInstance (saveInstance db w) k =
      (findInstance db k).map (fun v => if v.id == w.id then w else v) :=
  find?_map_key PlanInstance.id w k db.instances

theorem findUser_saveInstance (db : DB) (w : PlanInstance) (k : Nat) :
    findUser (saveInstance db w) k = findUser db k := rfl

theorem findInstance_saveUser (db : DB) (w : User) (k : Nat) :
    findInstance (saveUser db w) k = findInstance db k := rfl

theorem findUser_addTx (db : DB) (uid : Nat) (ty : TxType) (a : Rat)
    (st : TxStatus) (fee td : Option Rat) (k : Nat) :
    findUser (addTx db uid ty a st fee td) k = findUser db k := rfl

theorem findInstance_addTx (db : DB) (uid : Nat) (ty : TxType) (a : Rat)
    (st : TxStatus) (fee td : Option Rat) (k : Nat) :
    findInstance (addTx db uid ty a st fee td) k = findInstance db k := rfl

/-- C9: an upgrade attempt whose target template floor is not strictly
above the current template floor fails with NotAnUpgrade and the whole
database is returned unchanged: balances, instances and the active plan
reference are untouched. -/
theorem C9_not_an_upgrade (db : DB) (uid newPid : Nat) (now : Int)
    (u : User) (iid : Nat) (inst : PlanInstance) (newPlan oldPlan : Plan)
    (hu : findUser db uid = some u)
    (hai : u.activePlanInstance = some iid)
    (hinst : findInstance db iid = some inst)
    (hnew : findPlan db newPid = some newPlan)
    (hold : findPlan db inst.plan = some oldPlan)
    (hle : newPlan.minAmount ≤ oldPlan.minAmount) :
    upgradePlan uid newPid now db = (db, .error .notAnUpgrade) := by
  simp only [upgradePlan, hu, hai, hinst, hnew, hold]
  rw [if_pos hle]

/-- C9 witness: in state wdb, upgrading account 1 from plan 4
(floor 100) to plan 2 (floor 100) fails with NotAnUpgrade and leaves
the state unchanged. -/
theorem C9_witness : upgradePlan 1 2 50 wdb = (wdb, .error .notAnUpgrade) := by
  refine C9_not_an_upgrade wdb 1 2 50
    { id := 1, walletBalance := 500, bonusBalance := 0
      invitedBy := some 0, activePlanInstance := some 5
      hasDeposited := true, hasActivatedPlan := true }
    5
    { id := 5, user := 1, plan := 4, investedAmount := 100
      dailyProfit := 7, startDate := 0, endDate := 3456000000
      lastCollectedDate := none, totalCollected := 0, status := .active }
    { id := 2, minAmount := 100, maxAmount := 1000
      dailyYieldType := .fixed, dailyYieldValue := 10, durationDays := 30 }
    { id := 4, minAmount := 100, maxAmount := 800
      dailyYieldType := .fixed, dailyYieldValue := 7, durationDays := 40 }
    ?_ rfl ?_ ?_ ?_ ?_
  · norm_num [findUser, wdb]
  · norm_num [findInstance, wdb]
  · norm_num [findPlan, wdb]
  · norm_num [findPlan, wdb]
  · norm_num

/-- C7: calling collect past the active instance's end date fails with
the plan-expired error and, as a persisted side effect, the instance's
status becomes expired and the account's activePlanInstance is cleared;
the wallet balance and the ledger are untouched. -/
theorem C7_collect_expiry (db : DB) (uid : Nat) (now : Int)
    (u : User) (iid : Nat) (inst : PlanInstance)
    (hu : findUser db uid = some u)
    (hai : u.activePlanInstance = some iid)
    (hinst : findInstance db iid = some inst)
    (hexp : now > inst.endDate) :
    (collectDailyProfit uid now db).2 = .error .planExpired ∧
    (∀ i2 ∈ (collectDailyProfit uid now db).1.instances,
      i2.id = iid → i2.status = .expired) ∧
    activePlanOf (collectDailyProfit uid now db).1 uid = none ∧
    walletOf (collectDailyProfit uid now db).1 uid = u.walletBalance ∧
    (collectDailyProfit uid now db).1.transactions = db.transactions := by
  have hres : collectDailyProfit uid now db =
      (saveUser (saveInstance db { inst with status := .expired })
        { u with activePlanInstance := none }, .error .planExpired) := by
    simp only [collectDailyProfit, hu, hai, hinst]
    rw [if_pos hexp]
  rw [hres]
  refine ⟨rfl, ?_, ?_, ?_, rfl⟩
  · intro i2 h2 hid2
    simp only [saveUser, saveInstance, List.mem_map] at h2
    rcases h2 with ⟨j, _, hj⟩
    have hiid : inst.id = iid := findInstance_id hinst
    split at hj
    next => rw [← hj]
    next hcond =>
      exfalso
      apply hcond
      rw [hj, hid2, hiid]
      simp
  · have := findUser_saveUser
      (saveInstance db { inst with status := .expired })
      { u with activePlanInstance := none } uid
    simp only [activePlanOf, this, findUser_saveInstance, hu]
    have hid : u.id = uid := findUser_id hu
    simp [hid]
  · have := findUser_saveUser
      (saveInstance db { inst with status := .expired })
      { u with activePlanInstance := none } uid
    simp only [walletOf, this, findUser_saveInstance, hu]
    have hid : u.id = uid := findUser_id hu
    simp [hid]

/-- C7 witness: collecting on account 1 of wdb one millisecond past the
instance's end date yields the expired error, persists the expiry, and
leaves wallet and ledger untouched. -/
theorem C7_witness :
    (collectDailyProfit 1 3456000001 wdb).2 = .error .planExpired ∧
    (∀ i2 ∈ (collectDailyProfit 1 3456000001 wdb).1.instances,
      i2.id = 5 → i2.status = .expired) ∧
    activePlanOf (collectDailyProfit 1 3456000001 wdb).1 1 = none ∧
    walletOf (collectDailyProfit 1 3456000001 wdb).1 1 = 500 ∧
    (collectDailyProfit 1 3456000001 wdb).1.transactions =
      wdb.transactions :=
  C7_collect_expiry wdb 1 3456000001
    { id := 1, walletBalance := 500, bonusBalance := 0
      invitedBy := some 0, activePlanInstance := some 5
      hasDeposited := true, hasActivatedPlan := true }
    5
    { id := 5, user := 1, plan := 4, investedAmount := 100
      dailyProfit := 7, startDate := 0, endDate := 3456000000
      lastCollectedDate := none, totalCollected := 0, status := .active }
    (by norm_num [findUser, wdb]) rfl
    (by norm_num [findInstance, wdb]) (by decide)

/-- The bonus-first spend-down expression of activatePlan equals
min bonusBalance amount when both quantities are non-negative. -/
theorem bonusUsed_min (u : User) (amount : Rat) (hb : 0 ≤ u.bonusBalance)
    (ha : 0 ≤ amount) :
    bonusAmountUsedFor u amount = min u.bonusBalance amount := by
  rw [bonusAmountUsedFor]
  by_cases h1 : u.bonusBalance > 0
  · rw [if_pos h1]
    by_cases h2 : u.bonusBalance ≥ amount
    · rw [if_pos h2, min_eq_right h2]
    · push_neg at h2
      rw [if_neg (not_le.mpr h2), min_eq_left (le_of_lt h2)]
  · push_neg at h1
    have hb0 : u.bonusBalance = 0 := le_antisymm h1 hb
    rw [if_neg (by rw [hb0]; exact lt_irrefl 0), hb0, min_eq_left ha]

theorem findUser_instupd (db : DB) (ins : List PlanInstance) (n : Nat)
    (k : Nat) :
    findUser { db with instances := ins, nextId := n } k = findUser db k :=
  rfl

theorem findInstance_instupd (db : DB) (ins : List PlanInstance)
    (n k : Nat) :
    findInstance { db with instances := ins, nextId := n } k =
      ins.find? (fun i => i.id == k) := rfl

theorem find?_saveInstance_instances_none (db : DB) (w : PlanInstance)
    (k : Nat) (h : ∀ i ∈ db.instances, i.id ≠ k) (hw : w.id ≠ k) :
    (saveInstance db w).instances.find? (fun i => i.id == k) = none := by
  refine List.find?_eq_none.mpr ?_
  intro j hj
  simp only [saveInstance, List.mem_map] at hj
  rcases hj with ⟨j0, hj0, hj0e⟩
  have : j.id = w.id ∨ j.id = j0.id := by
    rw [← hj0e]
    split
    next => exact Or.inl rfl
    next => exact Or.inr rfl
  rcases this with hcase | hcase <;> simp only [hcase, beq_iff_eq]
  · simpa using hw
  · simpa using h j0 hj0

theorem findUser_payCommission_ne (db : DB) (rid : Nat) (c : Rat)
    (k : Nat) (hk : k ≠ rid) :
    findUser (payCommission rid c db) k = findUser db k := by
  rw [payCommission]
  cases hr : findUser db rid with
  | none => rfl
  | some r =>
    have hrid : r.id = rid := findUser_id hr
    rw [findUser_addTx, findUser_saveUser]
    cases hw : findUser db k with
    | none => rfl
    | some w =>
      have hwid : w.id = k := findUser_id hw
      simp only [Option.map_some']
      rw [if_neg]
      intro hcontra
      exact hk (hwid ▸ hrid ▸ beq_iff_eq.mp hcontra)

theorem findUser_payCommission_self (db : DB) (rid : Nat) (c : Rat)
    (r : User) (hr : findUser db rid = some r) :
    findUser (payCommission rid c db) rid =
      some { r with walletBalance := r.walletBalance + c } := by
  rw [payCommission, hr]
  simp only
  rw [findUser_addTx, findUser_saveUser, hr]
  simp

theorem findInstance_payCommission (db : DB) (rid : Nat) (c : Rat)
    (k : Nat) :
    findInstance (payCommission rid c db) k = findInstance db k := by
  rw [payCommission]
  cases hr : findUser db rid with
  | none => rfl
  | some r => rfl

theorem transactions_payCommission (db : DB) (rid : Nat) (c : Rat)
    (r : User) (hr : findUser db rid = some r) :
    (payCommission rid c db).transactions =
      db.transactions ++
        [{ id := db.nextId, user := rid, type := .commission, amount := c
           status := .approved, fee := none, totalDeducted := none }] := by
  rw [payCommission, hr]
  rfl

/-- C5: a successful activation conserves value: the wallet and bonus
balances together drop by exactly the invested amount, with the cost
drawn bonus-first (bonus decreases by min(bonus, amount), the wallet by
the remainder). -/
theorem C5_activation_conservation (db db2 : DB) (uid pid : Nat)
    (amount : Rat) (now : Int) (u : User)
    (hu : findUser db uid = some u)
    (hself : u.invitedBy ≠ some uid)
    (hb : 0 ≤ u.bonusBalance) (ha : 0 ≤ amount)
    (hok : activatePlan uid pid amount now db = (db2, .ok ())) :
    walletOf db2 uid + bonusOf db2 uid + amount =
      u.walletBalance + u.bonusBalance ∧
    bonusOf db2 uid = u.bonusBalance - min u.bonusBalance amount ∧
    walletOf db2 uid = u.walletBalance -
      (amount - min u.bonusBalance amount) := by
  have hid : u.id = uid := findUser_id hu
  have husedmin : bonusAmountUsedFor u amount = min u.bonusBalance amount :=
    bonusUsed_min u amount hb ha
  have hmain : ∀ w : User, findUser db2 uid = some w →
      w.walletBalance = u.walletBalance -
        (amount - bonusAmountUsedFor u amount) →
      w.bonusBalance = u.bonusBalance - bonusAmountUsedFor u amount →
      walletOf db2 uid + bonusOf db2 uid + amount =
        u.walletBalance + u.bonusBalance ∧
      bonusOf db2 uid = u.bonusBalance - min u.bonusBalance amount ∧
      walletOf db2 uid = u.walletBalance -
        (amount - min u.bonusBalance amount) := by
    intro w hw h1 h2
    simp only [walletOf, bonusOf, hw, h1, h2, husedmin]
    refine ⟨by ring, trivial, trivial⟩
  simp only [activatePlan, hu] at hok
  split at hok
  · simp at hok
  · split at hok
    · simp at hok
    · rename_i plan hp
      split at hok
      · simp at hok
      · split at hok
        · simp at hok
        · split at hok
          · -- no inviter
            have hdb2 : _ = db2 := congrArg Prod.fst hok
            apply hmain { u with
              walletBalance := u.walletBalance -
                (amount - bonusAmountUsedFor u amount)
              bonusBalance := u.bonusBalance - bonusAmountUsedFor u amount
              hasActivatedPlan := true
              activePlanInstance := some db.nextId } ?_ rfl rfl
            rw [← hdb2, findUser_addTx, findUser_saveUser,
              findUser_instupd, hu]
            simp [hid, newInstanceFor]
          · -- inviter present: commission goes to a different account
            rename_i rid hinv
            have hrneq : rid ≠ uid := fun hc => hself (hc ▸ hinv)
            have hdb2 : _ = db2 := congrArg Prod.fst hok
            apply hmain { u with
              walletBalance := u.walletBalance -
                (amount - bonusAmountUsedFor u amount)
              bonusBalance := u.bonusBalance - bonusAmountUsedFor u amount
              hasActivatedPlan := true
              activePlanInstance := some db.nextId } ?_ rfl rfl
            rw [← hdb2,
              findUser_payCommission_ne _ _ _ _ (Ne.symm hrneq),
              findUser_addTx, findUser_saveUser, findUser_instupd, hu]
            simp [hid, newInstanceFor]

/-- C5 witness: activating plan 2 with 300 MT on account 0 of wdb
(wallet 1000, bonus 40) conserves value and draws the 40 MT bonus
first. -/
theorem C5_witness :
    walletOf (activatePlan 0 2 300 0 wdb).1 0 +
      bonusOf (activatePlan 0 2 300 0 wdb).1 0 + 300 =
      (1000 : Rat) + 40 ∧
    bonusOf (activatePlan 0 2 300 0 wdb).1 0 = 40 - min (40 : Rat) 300 ∧
    walletOf (activatePlan 0 2 300 0 wdb).1 0 =
      1000 - (300 - min (40 : Rat) 300) :=
  C5_activation_conservation wdb (activatePlan 0 2 300 0 wdb).1 0 2 300 0
    { id := 0, walletBalance := 1000, bonusBalance := 40
      invitedBy := none, activePlanInstance := none
      hasDeposited := true, hasActivatedPlan := false }
    (by norm_num [findUser, wdb]) (by simp) (by norm_num) (by norm_num)
    (Prod.ext_iff.mpr ⟨rfl, by
      norm_num [activatePlan, bonusAmountUsedFor, newInstanceFor,
        findUser, findPlan, saveUser, addTx, computeDailyProfit, msPerDay,
        wdb, defaultSettings]⟩)

/-- A successful collection credits dailyProfit to the caller's wallet
and stamps the instance, whatever the referral situation is, provided
the caller is not their own inviter. -/
theorem collect_success_core (db : DB) (uid : Nat) (now : Int)
    (u : User) (iid : Nat) (inst : PlanInstance)
    (hu : findUser db uid = some u)
    (hai : u.activePlanInstance = some iid)
    (hinst : findInstance db iid = some inst)
    (hnx : ¬ now > inst.endDate)
    (hcan : canCollectAt inst now = true)
    (hself : u.invitedBy ≠ some uid) :
    (collectDailyProfit uid now db).2 = .ok () ∧
    findUser (collectDailyProfit uid now db).1 uid =
      some { u with walletBalance := u.walletBalance + inst.dailyProfit } ∧
    findInstance (collectDailyProfit uid now db).1 iid =
      some { inst with lastCollectedDate := some now
                       totalCollected :=
                         inst.totalCollected + inst.dailyProfit } := by
  have hid : u.id = uid := findUser_id hu
  have hiid : inst.id = iid := findInstance_id hinst
  simp only [collectDailyProfit, hu, hai, hinst]
  rw [if_neg hnx, if_neg (by simp [hcan])]
  rcases hinv : u.invitedBy with _ | rid
  · refine ⟨rfl, ?_, ?_⟩
    · rw [findUser_addTx, findUser_saveInstance, findUser_saveUser, hu]
      simp [hid]
    · rw [findInstance_addTx, findInstance_saveInstance,
        findInstance_saveUser, hinst]
      simp [hiid]
  · have hrneq : rid ≠ uid := fun hc => hself (hc ▸ hinv)
    refine ⟨rfl, ?_, ?_⟩
    · rw [findUser_payCommission_ne _ _ _ _ (Ne.symm hrneq),
        findUser_addTx, findUser_saveInstance, findUser_saveUser, hu]
      simp [hid]
    · rw [findInstance_payCommission, findInstance_addTx,
        findInstance_saveInstance, findInstance_saveUser, hinst]
      simp [hiid]

/-- Shape of a successful collection by an invited account: the daily
referral commission step runs on the post-collection state, and the
pre-commission state differs from db only in the collector's record,
the instance stamp and the appended collection entry. -/
theorem collect_success_invited (db : DB) (uid : Nat) (now : Int)
    (u : User) (iid : Nat) (inst : PlanInstance) (rid : Nat)
    (hu : findUser db uid = some u)
    (hai : u.activePlanInstance = some iid)
    (hinst : findInstance db iid = some inst)
    (hnx : ¬ now > inst.endDate)
    (hcan : canCollectAt inst now = true)
    (hinv : u.invitedBy = some rid)
    (hrneq : rid ≠ uid) :
    ∃ mid : DB,
      collectDailyProfit uid now db =
        (payCommission rid
          (inst.dailyProfit * (db.settings.dailyCommissionRate / 100)) mid,
          .ok ()) ∧
      findUser mid rid = findUser db rid ∧
      mid.transactions = db.transactions ++
        [{ id := db.nextId, user := uid, type := .collection
           amount := inst.dailyProfit, status := .approved
           fee := none, totalDeducted := none }] ∧
      mid.nextId = db.nextId + 1 ∧
      mid.settings = db.settings := by
  have hid : u.id = uid := findUser_id hu
  refine ⟨addTx (saveInstance
      (saveUser db
        { u with walletBalance := u.walletBalance + inst.dailyProfit })
      { inst with lastCollectedDate := some now
                  totalCollected := inst.totalCollected + inst.dailyProfit })
      uid .collection inst.dailyProfit .approved none none,
    ?_, ?_, ?_, ?_, ?_⟩
  · simp only [collectDailyProfit, hu, hai, hinst, hinv]
    rw [if_neg hnx, if_neg (by simp [hcan])]
  · rw [findUser_addTx, findUser_saveInstance, findUser_saveUser]
    cases hw : findUser db rid with
    | none => rfl
    | some w =>
      have hwid : w.id = rid := findUser_id hw
      simp only [Option.map_some']
      rw [if_neg]
      intro hcontra
      exact hrneq (hid ▸ hwid ▸ beq_iff_eq.mp hcontra)
  · rfl
  · rfl
  · rfl

/-- C6: with an active, non-expired plan instance, the first-ever
collect succeeds and credits exactly one dailyProfit, and a second
collect strictly less than 24 hours later fails with the
collection-not-yet-available error, leaving the entire persisted state
(wallet balance, lastCollectedDate, totalCollected included)
unchanged. -/
theorem C6_collection_window (db : DB) (uid : Nat) (now1 now2 : Int)
    (u : User) (iid : Nat) (inst : PlanInstance)
    (hu : findUser db uid = some u)
    (hai : u.activePlanInstance = some iid)
    (hinst : findInstance db iid = some inst)
    (hlast : inst.lastCollectedDate = none)
    (hn1 : ¬ now1 > inst.endDate) (hn2 : ¬ now2 > inst.endDate)
    (hlt : now2 - now1 < msPerDay)
    (hself : u.invitedBy ≠ some uid) :
    (collectDailyProfit uid now1 db).2 = .ok () ∧
    walletOf (collectDailyProfit uid now1 db).1 uid =
      u.walletBalance + inst.dailyProfit ∧
    collectDailyProfit uid now2 (collectDailyProfit uid now1 db).1 =
      ((collectDailyProfit uid now1 db).1,
        .error .collectionNotYetAvailable) := by
  have hcan1 : canCollectAt inst now1 = true := by
    simp [canCollectAt, hlast]
  obtain ⟨hok1, hu1, hi1⟩ := collect_success_core db uid now1 u iid inst
    hu hai hinst hn1 hcan1 hself
  refine ⟨hok1, by simp only [walletOf, hu1], ?_⟩
  generalize hgen : (collectDailyProfit uid now1 db).1 = db1 at hu1 hi1 ⊢
  have hcc : canCollectAt { inst with
      lastCollectedDate := some now1
      totalCollected := inst.totalCollected + inst.dailyProfit } now2 =
      false := by
    simp only [canCollectAt]
    exact decide_eq_false (not_le.mpr hlt)
  simp only [collectDailyProfit, hu1, hai, hi1]
  rw [if_neg (by exact hn2), if_pos hcc]

/-- C6 witness: on wdb, the first collect by account 1 at time 100
succeeds and credits 7 MT; a second collect one hour later fails and
changes nothing. -/
theorem C6_witness :
    (collectDailyProfit 1 100 wdb).2 = .ok () ∧
    walletOf (collectDailyProfit 1 100 wdb).1 1 = 500 + 7 ∧
    collectDailyProfit 1 3600100 (collectDailyProfit 1 100 wdb).1 =
      ((collectDailyProfit 1 100 wdb).1,
        .error .collectionNotYetAvailable) :=
  C6_collection_window wdb 1 100 3600100
    { id := 1, walletBalance := 500, bonusBalance := 0
      invitedBy := some 0, activePlanInstance := some 5
      hasDeposited := true, hasActivatedPlan := true }
    5
    { id := 5, user := 1, plan := 4, investedAmount := 100
      dailyProfit := 7, startDate := 0, endDate := 3456000000
      lastCollectedDate := none, totalCollected := 0, status := .active }
    (by norm_num [findUser, wdb]) rfl
    (by norm_num [findInstance, wdb]) rfl
    (by decide) (by decide) (by decide) (by simp)

/-- C1 (amended): on a successful collection by an invited account, the
daily referral commission dailyProfit * dailyCommissionRate / 100 is
credited to the referrer's wallet and a commission ledger entry is
appended whenever the referrer account exists, regardless of whether
the referrer currently holds an active plan instance. -/
theorem C1_collection_commission_ungated (db : DB) (uid : Nat)
    (now : Int) (u : User) (iid : Nat) (inst : PlanInstance) (rid : Nat)
    (r : User)
    (hu : findUser db uid = some u)
    (hai : u.activePlanInstance = some iid)
    (hinst : findInstance db iid = some inst)
    (hnx : ¬ now > inst.endDate)
    (hcan : canCollectAt inst now = true)
    (hinv : u.invitedBy = some rid)
    (hrneq : rid ≠ uid)
    (hr : findUser db rid = some r) :
    (collectDailyProfit uid now db).2 = .ok () ∧
    walletOf (collectDailyProfit uid now db).1 rid =
      r.walletBalance +
        inst.dailyProfit * (db.settings.dailyCommissionRate / 100) ∧
    (collectDailyProfit uid now db).1.transactions =
      db.transactions ++
        [{ id := db.nextId, user := uid, type := .collection
           amount := inst.dailyProfit, status := .approved
           fee := none, totalDeducted := none },
         { id := db.nextId + 1, user := rid, type := .commission
           amount := inst.dailyProfit *
             (db.settings.dailyCommissionRate / 100)
           status := .approved, fee := none, totalDeducted := none }] := by
  obtain ⟨mid, hEq, hmidr, hmidtx, hmidn, hmids⟩ :=
    collect_success_invited db uid now u iid inst rid hu hai hinst hnx
      hcan hinv hrneq
  have hrmid : findUser mid rid = some r := hmidr.trans hr
  rw [hEq]
  refine ⟨rfl, ?_, ?_⟩
  · simp only [walletOf, findUser_payCommission_self mid rid _ r hrmid]
  · show (payCommission rid _ mid).transactions = _
    rw [transactions_payCommission mid rid _ r hrmid, hmidtx, hmidn]
    simp [List.append_assoc]

/-- C1 witness: account 1 of wdb collects at time 100; its inviter
(account 0, holding no active plan) is credited 7 * 15 / 100 MT and
receives a commission ledger entry. -/
theorem C1_witness :
    (collectDailyProfit 1 100 wdb).2 = .ok () ∧
    walletOf (collectDailyProfit 1 100 wdb).1 0 =
      1000 + 7 * ((15 : Rat) / 100) ∧
    (collectDailyProfit 1 100 wdb).1.transactions =
      ([] : List Transaction) ++
        [{ id := 6, user := 1, type := .collection, amount := 7
           status := .approved, fee := none, totalDeducted := none },
         { id := 7, user := 0, type := .commission
           amount := 7 * ((15 : Rat) / 100)
           status := .approved, fee := none, totalDeducted := none }] :=
  C1_collection_commission_ungated wdb 1 100
    { id := 1, walletBalance := 500, bonusBalance := 0
      invitedBy := some 0, activePlanInstance := some 5
      hasDeposited := true, hasActivatedPlan := true }
    5
    { id := 5, user := 1, plan := 4, investedAmount := 100
      dailyProfit := 7, startDate := 0, endDate := 3456000000
      lastCollectedDate := none, totalCollected := 0, status := .active }
    0
    { id := 0, walletBalance := 1000, bonusBalance := 40
      invitedBy := none, activePlanInstance := none
      hasDeposited := true, hasActivatedPlan := false }
    (by norm_num [findUser, wdb]) rfl
    (by norm_num [findInstance, wdb]) (by decide) (by simp [canCollectAt])
    rfl (by decide) (by norm_num [findUser, wdb])

/-- A collection succeeds (returns ok) whenever the gate conditions
hold, whatever the referral situation. -/
theorem collect_success_ok (db : DB) (uid : Nat) (now : Int)
    (u : User) (iid : Nat) (inst : PlanInstance)
    (hu : findUser db uid = some u)
    (hai : u.activePlanInstance = some iid)
    (hinst : findInstance db iid = some inst)
    (hnx : ¬ now > inst.endDate)
    (hcan : canCollectAt inst now = true) :
    (collectDailyProfit uid now db).2 = .ok () := by
  simp only [collectDailyProfit, hu, hai, hinst]
  rw [if_neg hnx, if_neg (by simp [hcan])]
  cases hinv : u.invitedBy with
  | none => rfl
  | some rid => rfl

/-- C10: after a successful upgrade the account's new active instance
starts with lastCollectedDate null and totalCollected 0, so a collect
call at any time not past the new end date succeeds, no matter how
recently the replaced instance collected. -/
theorem C10_upgrade_resets_collection (db db2 : DB) (uid newPid : Nat)
    (now now2 : Int)
    (hok : upgradePlan uid newPid now db = (db2, .ok ()))
    (hfresh : ∀ i ∈ db.instances, i.id < db.nextId) :
    ∃ inst2 : PlanInstance,
      activePlanOf db2 uid = some inst2.id ∧
      findInstance db2 inst2.id = some inst2 ∧
      inst2.lastCollectedDate = none ∧
      inst2.totalCollected = 0 ∧
      inst2.startDate = now ∧
      (¬ now2 > inst2.endDate →
        (collectDailyProfit uid now2 db2).2 = .ok ()) := by
  simp only [upgradePlan] at hok
  split at hok
  · simp at hok
  · rename_i u hu
    split at hok
    · simp at hok
    · rename_i iid hai
      split at hok
      · simp at hok
      · rename_i oldInst hoi
        split at hok
        · simp at hok
        · rename_i newPlan hnp
          split at hok
          · simp at hok
          · rename_i oldPlan hop
            split at hok
            · simp at hok
            · split at hok
              · simp at hok
              · have hid : u.id = uid := findUser_id hu
                have hdb2 : _ = db2 := congrArg Prod.fst hok
                have hnone : (saveInstance db { oldInst with
                    status := InstStatus.expired }).instances.find?
                    (fun i => i.id == db.nextId) = none := by
                  refine find?_saveInstance_instances_none db _ _ ?_ ?_
                  · intro i hi
                    exact Nat.ne_of_lt (hfresh i hi)
                  · exact Nat.ne_of_lt
                      (hfresh oldInst (findInstance_mem hoi))
                have hfu2 : findUser db2 uid = some { u with
                    walletBalance := u.walletBalance -
                      (newPlan.minAmount - oldPlan.minAmount)
                    activePlanInstance := some db.nextId } := by
                  rw [← hdb2, findUser_addTx, findUser_saveUser,
                    findUser_instupd, findUser_saveInstance, hu]
                  simp [hid, newInstanceFor, saveInstance]
                have hfi2 : findInstance db2 db.nextId =
                    some (newInstanceFor db.nextId uid newPid
                      newPlan.minAmount
                      (computeDailyProfit newPlan.dailyYieldType
                        newPlan.dailyYieldValue newPlan.minAmount)
                      now newPlan.durationDays) := by
                  rw [← hdb2, findInstance_addTx, findInstance_saveUser,
                    findInstance_instupd, List.find?_append, hnone]
                  simp [newInstanceFor, saveInstance]
                refine ⟨newInstanceFor db.nextId uid newPid
                  newPlan.minAmount
                  (computeDailyProfit newPlan.dailyYieldType
                    newPlan.dailyYieldValue newPlan.minAmount)
                  now newPlan.durationDays, ?_, ?_, rfl, rfl, rfl, ?_⟩
                · simp only [activePlanOf, hfu2, newInstanceFor]
                · exact hfi2
                · intro hne2
                  exact collect_success_ok db2 uid now2 _ db.nextId _
                    hfu2 rfl hfi2 hne2 (by simp [canCollectAt, newInstanceFor])

/-- C10 witness: upgrading account 1 of wdb from plan 4 to plan 3 at
time 50 yields a fresh instance with no collection history, and a
collect immediately after succeeds. -/
theorem C10_witness :
    ∃ inst2 : PlanInstance,
      activePlanOf (upgradePlan 1 3 50 wdb).1 1 = some inst2.id ∧
      findInstance (upgradePlan 1 3 50 wdb).1 inst2.id = some inst2 ∧
      inst2.lastCollectedDate = none ∧
      inst2.totalCollected = 0 ∧
      inst2.startDate = 50 ∧
      (¬ (60 : Int) > inst2.endDate →
        (collectDailyProfit 1 60 (upgradePlan 1 3 50 wdb).1).2 =
          .ok ()) :=
  C10_upgrade_resets_collection wdb (upgradePlan 1 3 50 wdb).1 1 3 50 60
    (Prod.ext_iff.mpr ⟨rfl, by
      norm_num [upgradePlan, newInstanceFor, findUser, findInstance,
        findPlan, saveUser, saveInstance, addTx, payCommission,
        computeDailyProfit, msPerDay, wdb, defaultSettings]⟩)
    (by decide)

/-! Ledger-sum arithmetic lemmas. -/

theorem ledgerSum_nil (f : Transaction → Rat) (uid : Nat) :
    ledgerSum f [] uid = 0 := rfl

theorem ledgerSum_cons (f : Transaction → Rat) (a : Transaction)
    (l : List Transaction) (uid : Nat) :
    ledgerSum f (a :: l) uid =
      (if a.user == uid then f a else 0) + ledgerSum f l uid := by
  simp [ledgerSum]

theorem ledgerSum_append (f : Transaction → Rat) (txs : List Transaction)
    (t : Transaction) (uid : Nat) :
    ledgerSum f (txs ++ [t]) uid =
      ledgerSum f txs uid + (if t.user == uid then f t else 0) := by
  simp [ledgerSum]

theorem ledgerSum_eq_zero (f : Transaction → Rat)
    (txs : List Transaction) (uid : Nat)
    (h : ∀ t ∈ txs, t.user ≠ uid) :
    ledgerSum f txs uid = 0 := by
  induction txs with
  | nil => rfl
  | cons a l ih =>
    rw [ledgerSum_cons]
    rw [if_neg (by simpa using h a (List.mem_cons_self a l)),
      ih (fun t ht => h t (List.mem_cons_of_mem a ht))]
    ring

theorem map_update_of_ne_tx (l : List Transaction) (t2 : Transaction)
    (tid : Nat) (h : ∀ s ∈ l, s.id ≠ tid) :
    l.map (fun s => if s.id == tid then t2 else s) = l := by
  induction l with
  | nil => rfl
  | cons a l ih =>
    rw [List.map_cons,
      if_neg (by simpa using h a (List.mem_cons_self a l)),
      ih (fun s hs => h s (List.mem_cons_of_mem a hs))]

theorem ledgerSum_update (f : Transaction → Rat)
    (txs : List Transaction) (t t2 : Transaction) (uid : Nat)
    (hmem : t ∈ txs)
    (hdist : txs.Pairwise (fun a b => a.id ≠ b.id)) :
    ledgerSum f (txs.map (fun s => if s.id == t.id then t2 else s)) uid =
      ledgerSum f txs uid +
        ((if t2.user == uid then f t2 else 0) -
         (if t.user == uid then f t else 0)) := by
  induction txs with
  | nil => cases hmem
  | cons a l ih =>
    rw [List.pairwise_cons] at hdist
    rcases List.mem_cons.mp hmem with rfl | hmem2
    · rw [List.map_cons, if_pos (by simp),
        map_update_of_ne_tx l t2 t.id
          (fun s hs => (hdist.1 s hs).symm),
        ledgerSum_cons, ledgerSum_cons]
      ring
    · have hne : (a.id == t.id) = false := by
        simpa using hdist.1 t hmem2
      rw [List.map_cons, hne]
      simp only [Bool.false_eq_true, if_false]
      rw [ledgerSum_cons, ledgerSum_cons, ih hmem2 hdist.2]
      ring

/-! Master preservation lemmas for the balanced-ledger property. -/

theorem balanced_save_addTx (users : List User)
    (txs : List Transaction) (old nu : User) (t : Transaction)
    (hb : ∀ u ∈ users, ledgerSum codeContribution txs u.id =
      u.walletBalance + u.bonusBalance)
    (hid : nu.id = old.id) (hold : old ∈ users)
    (htuser : t.user = old.id)
    (hdelta : nu.walletBalance + nu.bonusBalance =
      old.walletBalance + old.bonusBalance + codeContribution t) :
    ∀ u ∈ users.map (fun v => if v.id == nu.id then nu else v),
      ledgerSum codeContribution (txs ++ [t]) u.id =
        u.walletBalance + u.bonusBalance := by
  intro u hu
  rcases List.mem_map.mp hu with ⟨v, hv, hveq⟩
  rw [ledgerSum_append]
  by_cases hcase : (v.id == nu.id) = true
  · rw [if_pos hcase] at hveq
    subst hveq
    rw [if_pos (by simp [htuser, hid]), hid, hb old hold, hdelta]
  · rw [if_neg hcase] at hveq
    subst hveq
    have hvne : v.id ≠ nu.id := by simpa using hcase
    rw [if_neg (by
      simp only [beq_iff_eq, htuser, ← hid]
      exact fun hc => hvne hc.symm)]
    rw [hb v hv]
    ring

theorem balanced_updateTx (users : List User) (txs : List Transaction)
    (old nu : User) (t t2 : Transaction)
    (hb : ∀ u ∈ users, ledgerSum codeContribution txs u.id =
      u.walletBalance + u.bonusBalance)
    (hid : nu.id = old.id) (hold : old ∈ users)
    (hmem : t ∈ txs)
    (hdist : txs.Pairwise (fun a b => a.id ≠ b.id))
    (ht2user : t2.user = t.user) (htuser : t.user = old.id)
    (hdelta : nu.walletBalance + nu.bonusBalance =
      old.walletBalance + old.bonusBalance +
        (codeContribution t2 - codeContribution t)) :
    ∀ u ∈ users.map (fun v => if v.id == nu.id then nu else v),
      ledgerSum codeContribution
        (txs.map (fun s => if s.id == t.id then t2 else s)) u.id =
        u.walletBalance + u.bonusBalance := by
  intro u hu
  rcases List.mem_map.mp hu with ⟨v, hv, hveq⟩
  by_cases hcase : (v.id == nu.id) = true
  · rw [if_pos hcase] at hveq
    subst hveq
    rw [ledgerSum_update codeContribution txs t t2 nu.id hmem hdist]
    rw [if_pos (by simp [ht2user, htuser, hid]),
      if_pos (by simp [htuser, hid])]
    rw [hid, hb old hold, hdelta]
  · rw [if_neg hcase] at hveq
    subst hveq
    have hvne : v.id ≠ nu.id := by simpa using hcase
    rw [ledgerSum_update codeContribution txs t t2 v.id hmem hdist]
    rw [if_neg (by
        simp only [beq_iff_eq, ht2user, htuser, ← hid]
        exact fun hc => hvne hc.symm),
      if_neg (by
        simp only [beq_iff_eq, htuser, ← hid]
        exact fun hc => hvne hc.symm)]
    rw [hb v hv]
    ring

theorem balanced_updateTx_pure (users : List User)
    (txs : List Transaction) (t t2 : Transaction)
    (hb : ∀ u ∈ users, ledgerSum codeContribution txs u.id =
      u.walletBalance + u.bonusBalance)
    (hmem : t ∈ txs)
    (hdist : txs.Pairwise (fun a b => a.id ≠ b.id))
    (ht2user : t2.user = t.user)
    (hzero : codeContribution t2 = codeContribution t) :
    ∀ u ∈ users,
      ledgerSum codeContribution
        (txs.map (fun s => if s.id == t.id then t2 else s)) u.id =
        u.walletBalance + u.bonusBalance := by
  intro u hu
  rw [ledgerSum_update codeContribution txs t t2 u.id hmem hdist,
    ht2user, hzero]
  rw [hb u hu]
  ring

theorem balanced_addTx_zero (users : List User)
    (txs : List Transaction) (t : Transaction)
    (hb : ∀ u ∈ users, ledgerSum codeContribution txs u.id =
      u.walletBalance + u.bonusBalance)
    (hzero : codeContribution t = 0) :
    ∀ u ∈ users,
      ledgerSum codeContribution (txs ++ [t]) u.id =
        u.walletBalance + u.bonusBalance := by
  intro u hu
  rw [ledgerSum_append, hzero, hb u hu]
  simp

theorem balanced_register (users : List User) (txs : List Transaction)
    (nu : User) (t : Transaction)
    (hb : ∀ u ∈ users, ledgerSum codeContribution txs u.id =
      u.walletBalance + u.bonusBalance)
    (hnotin : ∀ s ∈ txs, s.user ≠ nu.id)
    (husers : ∀ v ∈ users, v.id ≠ nu.id)
    (htuser : t.user = nu.id)
    (hval : nu.walletBalance + nu.bonusBalance = codeContribution t) :
    ∀ u ∈ users ++ [nu],
      ledgerSum codeContribution (txs ++ [t]) u.id =
        u.walletBalance + u.bonusBalance := by
  intro u hu
  rw [ledgerSum_append]
  rcases List.mem_append.mp hu with hul | hur
  · rw [if_neg (by
      simp only [beq_iff_eq, htuser]
      exact fun hc => husers u hul hc.symm)]
    rw [hb u hul]
    ring
  · have huu : u = nu := by simpa using hur
    subst huu
    rw [if_pos (by simp [htuser]),
      ledgerSum_eq_zero codeContribution txs u.id hnotin, hval]
    ring

/-! Bookkeeping lemmas for LedgerInvL preservation. -/

theorem pairwise_ne_append_fresh (txs : List Transaction)
    (t : Transaction) (n : Nat)
    (hlt : ∀ s ∈ txs, s.id < n) (ht : n ≤ t.id)
    (hdist : txs.Pairwise (fun a b => a.id ≠ b.id)) :
    (txs ++ [t]).Pairwise (fun a b => a.id ≠ b.id) := by
  rw [List.pairwise_append]
  refine ⟨hdist, by simp, ?_⟩
  intro a ha b hb
  simp only [List.mem_singleton] at hb
  subst hb
  exact Nat.ne_of_lt (Nat.lt_of_lt_of_le (hlt a ha) ht)

theorem updTx_id (t2 : Transaction) (tid : Nat) (hid : t2.id = tid)
    (s : Transaction) :
    (if s.id == tid then t2 else s).id = s.id := by
  split
  next hc => rw [hid, beq_iff_eq.mp hc]
  next => rfl

theorem updUser_id (nu : User) (v : User) :
    (if v.id == nu.id then nu else v).id = v.id := by
  split
  next hc => exact (beq_iff_eq.mp hc).symm
  next => rfl

theorem ledgerInvL_mono {users : List User} {txs : List Transaction}
    {n m : Nat} (h : LedgerInvL users txs n) (hnm : n ≤ m) :
    LedgerInvL users txs m where
  balanced := h.balanced
  wdNonpos := h.wdNonpos
  txIdLt := fun t ht => Nat.lt_of_lt_of_le (h.txIdLt t ht) hnm
  txDistinct := h.txDistinct
  txUserLt := fun t ht => Nat.lt_of_lt_of_le (h.txUserLt t ht) hnm
  userIdLt := fun u hu => Nat.lt_of_lt_of_le (h.userIdLt u hu) hnm

theorem ledgerInvL_setStatus (users : List User)
    (txs : List Transaction) (n : Nat) (t : Transaction)
    (st : TxStatus)
    (h : LedgerInvL users txs n) (hmem : t ∈ txs)
    (hcontrib : codeContribution { t with status := st } =
      codeContribution t) :
    LedgerInvL users
      (txs.map (fun s => if s.id == t.id then { t with status := st }
        else s)) n where
  balanced := balanced_updateTx_pure users txs t _ h.balanced hmem
    h.txDistinct rfl hcontrib
  wdNonpos := by
    intro s hs hty
    rcases List.mem_map.mp hs with ⟨s0, hs0, hs0e⟩
    subst hs0e
    by_cases hc : (s0.id == t.id) = true
    · rw [if_pos hc] at hty ⊢
      exact h.wdNonpos t hmem hty
    · rw [if_neg hc] at hty ⊢
      exact h.wdNonpos s0 hs0 hty
  txIdLt := by
    intro s hs
    rcases List.mem_map.mp hs with ⟨s0, hs0, hs0e⟩
    subst hs0e
    rw [updTx_id ({ t with status := st }) t.id rfl]
    exact h.txIdLt s0 hs0
  txDistinct := by
    refine h.txDistinct.map _ ?_
    intro a b hab
    rw [updTx_id ({ t with status := st }) t.id rfl, updTx_id ({ t with status := st }) t.id rfl]
    exact hab
  txUserLt := by
    intro s hs
    rcases List.mem_map.mp hs with ⟨s0, hs0, hs0e⟩
    subst hs0e
    split
    next hc =>
      rw [show ({ t with status := st } : Transaction).user = t.user
        from rfl]
      exact h.txUserLt t hmem
    next => exact h.txUserLt s0 hs0
  userIdLt := h.userIdLt

theorem ledgerInvL_save_addTx (users : List User)
    (txs : List Transaction) (n k : Nat) (old nu : User) (ty : TxType)
    (amt : Rat) (fee td : Option Rat)
    (h : LedgerInvL users txs n) (hnk : n ≤ k)
    (hid : nu.id = old.id) (hold : old ∈ users)
    (hdelta : nu.walletBalance + nu.bonusBalance =
      old.walletBalance + old.bonusBalance +
      codeContribution
        { id := k, user := old.id, type := ty
          amount := amt, status := .approved, fee := fee
          totalDeducted := td })
    (hwd : ty = .withdrawal → amt ≤ 0) :
    LedgerInvL (users.map (fun v => if v.id == nu.id then nu else v))
      (txs ++ [{ id := k, user := old.id, type := ty, amount := amt
                 status := .approved, fee := fee
                 totalDeducted := td }]) (k + 1) where
  balanced := balanced_save_addTx users txs old nu _ h.balanced hid hold
    rfl hdelta
  wdNonpos := by
    intro s hs hty
    rcases List.mem_append.mp hs with hsl | hsr
    · exact h.wdNonpos s hsl hty
    · have hst := List.mem_singleton.mp hsr
      subst hst
      exact hwd hty
  txIdLt := by
    intro s hs
    rcases List.mem_append.mp hs with hsl | hsr
    · exact Nat.lt_of_lt_of_le (h.txIdLt s hsl)
        (Nat.le_succ_of_le hnk)
    · have hst := List.mem_singleton.mp hsr
      subst hst
      exact Nat.lt_succ_self k
  txDistinct := by
    refine pairwise_ne_append_fresh txs _ n ?_ ?_ h.txDistinct
    · exact h.txIdLt
    · exact hnk
  txUserLt := by
    intro s hs
    rcases List.mem_append.mp hs with hsl | hsr
    · exact Nat.lt_of_lt_of_le (h.txUserLt s hsl)
        (Nat.le_succ_of_le hnk)
    · have hst := List.mem_singleton.mp hsr
      subst hst
      exact Nat.lt_of_lt_of_le (h.userIdLt old hold)
        (Nat.le_succ_of_le hnk)
  userIdLt := by
    intro u hu
    rcases List.mem_map.mp hu with ⟨v, hv, hveq⟩
    subst hveq
    rw [updUser_id]
    exact Nat.lt_of_lt_of_le (h.userIdLt v hv) (Nat.le_succ_of_le hnk)

theorem ledgerInvL_save_updateTx (users : List User)
    (txs : List Transaction) (n : Nat) (old nu : User)
    (t : Transaction) (st : TxStatus)
    (h : LedgerInvL users txs n)
    (hid : nu.id = old.id) (hold : old ∈ users) (hmem : t ∈ txs)
    (htuser : t.user = old.id)
    (hdelta : nu.walletBalance + nu.bonusBalance =
      old.walletBalance + old.bonusBalance +
      (codeContribution { t with status := st } - codeContribution t)) :
    LedgerInvL (users.map (fun v => if v.id == nu.id then nu else v))
      (txs.map (fun s => if s.id == t.id then { t with status := st }
        else s)) n where
  balanced := balanced_updateTx users txs old nu t _ h.balanced hid hold
    hmem h.txDistinct rfl htuser hdelta
  wdNonpos := by
    intro s hs hty
    rcases List.mem_map.mp hs with ⟨s0, hs0, hs0e⟩
    subst hs0e
    by_cases hc : (s0.id == t.id) = true
    · rw [if_pos hc] at hty ⊢
      exact h.wdNonpos t hmem hty
    · rw [if_neg hc] at hty ⊢
      exact h.wdNonpos s0 hs0 hty
  txIdLt := by
    intro s hs
    rcases List.mem_map.mp hs with ⟨s0, hs0, hs0e⟩
    subst hs0e
    rw [updTx_id ({ t with status := st }) t.id rfl]
    exact h.txIdLt s0 hs0
  txDistinct := by
    refine h.txDistinct.map _ ?_
    intro a b hab
    rw [updTx_id ({ t with status := st }) t.id rfl, updTx_id ({ t with status := st }) t.id rfl]
    exact hab
  txUserLt := by
    intro s hs
    rcases List.mem_map.mp hs with ⟨s0, hs0, hs0e⟩
    subst hs0e
    split
    next hc =>
      rw [show ({ t with status := st } : Transaction).user = t.user
        from rfl]
      exact h.txUserLt t hmem
    next => exact h.txUserLt s0 hs0
  userIdLt := by
    intro u hu
    rcases List.mem_map.mp hu with ⟨v, hv, hveq⟩
    subst hveq
    rw [updUser_id]
    exact h.userIdLt v hv

theorem ledgerInvL_addTx_pending (users : List User)
    (txs : List Transaction) (n : Nat) (uid : Nat) (ty : TxType)
    (amt : Rat) (fee td : Option Rat)
    (h : LedgerInvL users txs n) (huid : uid < n)
    (hzero : codeContribution
      { id := n, user := uid, type := ty
        amount := amt, status := .pending, fee := fee
        totalDeducted := td } = 0)
    (hwd : ty = .withdrawal → amt ≤ 0) :
    LedgerInvL users
      (txs ++ [{ id := n, user := uid, type := ty, amount := amt
                 status := .pending, fee := fee
                 totalDeducted := td }]) (n + 1) where
  balanced := balanced_addTx_zero users txs _ h.balanced hzero
  wdNonpos := by
    intro s hs hty
    rcases List.mem_append.mp hs with hsl | hsr
    · exact h.wdNonpos s hsl hty
    · have hst := List.mem_singleton.mp hsr
      subst hst
      exact hwd hty
  txIdLt := by
    intro s hs
    rcases List.mem_append.mp hs with hsl | hsr
    · exact Nat.lt_succ_of_lt (h.txIdLt s hsl)
    · have hst := List.mem_singleton.mp hsr
      subst hst
      exact Nat.lt_succ_self n
  txDistinct := by
    refine pairwise_ne_append_fresh txs _ n h.txIdLt (le_refl n)
      h.txDistinct
  txUserLt := by
    intro s hs
    rcases List.mem_append.mp hs with hsl | hsr
    · exact Nat.lt_succ_of_lt (h.txUserLt s hsl)
    · have hst := List.mem_singleton.mp hsr
      subst hst
      exact Nat.lt_succ_of_lt huid
  userIdLt := fun u hu => Nat.lt_succ_of_lt (h.userIdLt u hu)

theorem ledgerInvL_register (users : List User)
    (txs : List Transaction) (n : Nat) (w : Rat) (inv : Option Nat)
    (h : LedgerInvL users txs n) :
    LedgerInvL
      (users ++ [{ id := n, walletBalance := 0, bonusBalance := 0 + w
                   invitedBy := inv, activePlanInstance := none
                   hasDeposited := false, hasActivatedPlan := false }])
      (txs ++ [{ id := n + 1, user := n, type := .welcome_bonus
                 amount := w, status := .approved, fee := none
                 totalDeducted := none }]) (n + 2) where
  balanced := by
    refine balanced_register users txs _ _ h.balanced ?_ ?_ rfl ?_
    · intro s hs
      exact Nat.ne_of_lt (h.txUserLt s hs)
    · intro v hv
      exact Nat.ne_of_lt (h.userIdLt v hv)
    · show (0 : Rat) + (0 + w) = codeContribution _
      show (0 : Rat) + (0 + w) = w
      ring
  wdNonpos := by
    intro s hs hty
    rcases List.mem_append.mp hs with hsl | hsr
    · exact h.wdNonpos s hsl hty
    · have hst := List.mem_singleton.mp hsr
      subst hst
      exact TxType.noConfusion hty
  txIdLt := by
    intro s hs
    rcases List.mem_append.mp hs with hsl | hsr
    · exact Nat.lt_of_lt_of_le (h.txIdLt s hsl) (by omega)
    · have hst := List.mem_singleton.mp hsr
      subst hst
      exact Nat.lt_succ_self (n + 1)
  txDistinct := by
    refine pairwise_ne_append_fresh txs _ n h.txIdLt (Nat.le_succ n)
      h.txDistinct
  txUserLt := by
    intro s hs
    rcases List.mem_append.mp hs with hsl | hsr
    · exact Nat.lt_of_lt_of_le (h.txUserLt s hsl) (by omega)
    · have hst := List.mem_singleton.mp hsr
      subst hst
      exact Nat.lt_succ_of_lt (Nat.lt_succ_self n)
  userIdLt := by
    intro u hu
    rcases List.mem_append.mp hu with hul | hur
    · exact Nat.lt_of_lt_of_le (h.userIdLt u hul) (by omega)
    · have huu := List.mem_singleton.mp hur
      subst huu
      exact Nat.lt_succ_of_lt (Nat.lt_succ_self n)

theorem ledgerInvL_save_pure (users : List User)
    (txs : List Transaction) (n : Nat) (old nu : User)
    (h : LedgerInvL users txs n)
    (hid : nu.id = old.id) (hold : old ∈ users)
    (hw : nu.walletBalance = old.walletBalance)
    (hbb : nu.bonusBalance = old.bonusBalance) :
    LedgerInvL (users.map (fun v => if v.id == nu.id then nu else v))
      txs n where
  balanced := by
    intro u hu
    rcases List.mem_map.mp hu with ⟨v, hv, hveq⟩
    by_cases hcase : (v.id == nu.id) = true
    · rw [if_pos hcase] at hveq
      subst hveq
      rw [hid, hw, hbb]
      exact h.balanced old hold
    · rw [if_neg hcase] at hveq
      subst hveq
      exact h.balanced v hv
  wdNonpos := h.wdNonpos
  txIdLt := h.txIdLt
  txDistinct := h.txDistinct
  txUserLt := h.txUserLt
  userIdLt := by
    intro u hu
    rcases List.mem_map.mp hu with ⟨v, hv, hveq⟩
    subst hveq
    rw [updUser_id]
    exact h.userIdLt v hv

/-- The referral commission payment preserves the ledger invariant. -/
theorem ledgerInv_payCommission (rid : Nat) (c : Rat) (db : DB)
    (h : LedgerInv db) : LedgerInv (payCommission rid c db) := by
  rw [payCommission]
  cases hr : findUser db rid with
  | none => exact h
  | some r =>
    have hrid : r.id = rid := findUser_id hr
    rw [← hrid]
    exact ledgerInvL_save_addTx db.users db.transactions db.nextId
      db.nextId r { r with walletBalance := r.walletBalance + c }
      .commission c none none h (le_refl _) rfl (findUser_mem hr)
      (by
        show (r.walletBalance + c) + r.bonusBalance =
          r.walletBalance + r.bonusBalance + c
        ring)
      (fun hc => TxType.noConfusion hc)

/-! Per-operation preservation of the ledger invariant. -/

theorem ledgerInv_register (inv : Option Nat) (db : DB)
    (h : LedgerInv db) : LedgerInv (registerUser inv db).1 :=
  ledgerInvL_register db.users db.transactions db.nextId
    db.settings.welcomeBonus _ h

theorem ledgerInv_createPlan (a b v : Rat) (t : YieldType) (d : Nat)
    (db : DB) (h : LedgerInv db) : LedgerInv (createPlan a b v t d db).1 := by
  rw [createPlan]
  split
  · exact h
  · split
    · exact h
    · split
      · exact h
      · exact ledgerInvL_mono h (Nat.le_succ _)

theorem ledgerInv_depositRequest (uid : Nat) (a : Rat) (db : DB)
    (h : LedgerInv db) : LedgerInv (createDepositRequest uid a db).1 := by
  have hL : LedgerInvL db.users db.transactions db.nextId := h
  rw [createDepositRequest]
  cases hu : findUser db uid with
  | none => exact h
  | some u =>
    simp only
    split
    · exact h
    · split
      · exact h
      · have huid : uid < db.nextId :=
          findUser_id hu ▸ hL.userIdLt u (findUser_mem hu)
        exact ledgerInvL_addTx_pending db.users db.transactions db.nextId
          uid .deposit a none none hL huid rfl
          (fun hc => TxType.noConfusion hc)

theorem ledgerInv_approveDeposit (tid : Nat) (db : DB)
    (h : LedgerInv db) : LedgerInv (approveDeposit tid db).1 := by
  have hL : LedgerInvL db.users db.transactions db.nextId := h
  rw [approveDeposit]
  cases htx : findTx db tid with
  | none => exact h
  | some tx =>
    simp only
    split
    · exact h
    · rename_i hval
      push_neg at hval
      cases hus : findUser db tx.user with
      | none => exact h
      | some user =>
        simp only
        exact ledgerInvL_save_updateTx db.users db.transactions db.nextId
          user { user with
            walletBalance := user.walletBalance + tx.amount
            hasDeposited := true } tx .approved hL rfl
          (findUser_mem hus) (findTx_mem htx) (findUser_id hus).symm
          (by
            simp only [codeContribution, hval.1, hval.2]
            ring)

theorem ledgerInv_rejectDeposit (tid : Nat) (db : DB)
    (h : LedgerInv db) : LedgerInv (rejectDeposit tid db).1 := by
  have hL : LedgerInvL db.users db.transactions db.nextId := h
  rw [rejectDeposit]
  cases htx : findTx db tid with
  | none => exact h
  | some tx =>
    simp only
    split
    · exact h
    · rename_i hval
      push_neg at hval
      exact ledgerInvL_setStatus db.users db.transactions db.nextId tx
        .rejected hL (findTx_mem htx)
        (by simp only [codeContribution, hval.1, hval.2])

theorem ledgerInv_withdrawRequest (uid : Nat) (a : Rat) (db : DB)
    (h : LedgerInv db) :
    LedgerInv (createWithdrawalRequest uid a db).1 := by
  have hL : LedgerInvL db.users db.transactions db.nextId := h
  rw [createWithdrawalRequest]
  cases hu : findUser db uid with
  | none => exact h
  | some u =>
    simp only
    split
    · exact h
    · rename_i hpos
      split
      · exact h
      · split
        · exact h
        · split
          · exact h
          · split
            · exact h
            · have huid : uid < db.nextId :=
                findUser_id hu ▸ hL.userIdLt u (findUser_mem hu)
              refine ledgerInvL_addTx_pending db.users db.transactions
                db.nextId uid .withdrawal (-a) _ _ hL huid rfl ?_
              intro _
              have hapos : 0 < a := lt_of_not_le hpos
              simpa using le_of_lt hapos

theorem ledgerInv_approveWithdrawal (tid : Nat) (db : DB)
    (h : LedgerInv db) : LedgerInv (approveWithdrawal tid db).1 := by
  have hL : LedgerInvL db.users db.transactions db.nextId := h
  rw [approveWithdrawal]
  cases htx : findTx db tid with
  | none => exact h
  | some tx =>
    simp only
    split
    · exact h
    · rename_i hval
      push_neg at hval
      cases hus : findUser db tx.user with
      | none => exact h
      | some user =>
        simp only
        split
        · exact ledgerInvL_setStatus db.users db.transactions db.nextId
            tx .rejected hL (findTx_mem htx)
            (by simp only [codeContribution, hval.1, hval.2])
        · have hneg : tx.amount ≤ 0 :=
            hL.wdNonpos tx (findTx_mem htx) hval.1
          exact ledgerInvL_save_updateTx db.users db.transactions
            db.nextId user { user with
              walletBalance := user.walletBalance - tx.amount } tx
            .approved hL rfl (findUser_mem hus) (findTx_mem htx)
            (findUser_id hus).symm
            (by
              simp only [codeContribution, hval.1, hval.2]
              rw [abs_of_nonpos hneg]
              ring)

theorem ledgerInv_rejectWithdrawal (tid : Nat) (db : DB)
    (h : LedgerInv db) : LedgerInv (rejectWithdrawal tid db).1 := by
  have hL : LedgerInvL db.users db.transactions db.nextId := h
  rw [rejectWithdrawal]
  cases htx : findTx db tid with
  | none => exact h
  | some tx =>
    simp only
    split
    · exact h
    · rename_i hval
      push_neg at hval
      exact ledgerInvL_setStatus db.users db.transactions db.nextId tx
        .rejected hL (findTx_mem htx)
        (by simp only [codeContribution, hval.1, hval.2])

theorem ledgerInv_activate (uid pid : Nat) (amount : Rat) (now : Int)
    (db : DB) (h : LedgerInv db) :
    LedgerInv (activatePlan uid pid amount now db).1 := by
  have hL : LedgerInvL db.users db.transactions db.nextId := h
  cases hu : findUser db uid with
  | none => simp only [activatePlan, hu]; exact h
  | some u =>
    have hid : u.id = uid := findUser_id hu
    simp only [activatePlan, hu]
    split
    · exact h
    · cases hp : findPlan db pid with
      | none => simp only [hp]; exact h
      | some plan =>
        simp only [hp]
        split
        · exact h
        · split
          · exact h
          · cases hinv : u.invitedBy with
            | none =>
              simp only [hinv]
              rw [← hid]
              refine ledgerInvL_save_addTx db.users db.transactions
                db.nextId (db.nextId + 1) u _ .investment (-amount)
                none none hL (Nat.le_succ _) rfl (findUser_mem hu) ?_
                (fun hc => TxType.noConfusion hc)
              simp only [codeContribution]
              ring
            | some rid =>
              simp only [hinv]
              rw [← hid]
              refine ledgerInv_payCommission rid _ _ ?_
              refine ledgerInvL_save_addTx db.users db.transactions
                db.nextId (db.nextId + 1) u _ .investment (-amount)
                none none hL (Nat.le_succ _) rfl (findUser_mem hu) ?_
                (fun hc => TxType.noConfusion hc)
              simp only [codeContribution]
              ring

theorem ledgerInv_upgrade (uid newPid : Nat) (now : Int) (db : DB)
    (h : LedgerInv db) : LedgerInv (upgradePlan uid newPid now db).1 := by
  have hL : LedgerInvL db.users db.transactions db.nextId := h
  cases hu : findUser db uid with
  | none => simp only [upgradePlan, hu]; exact h
  | some u =>
    have hid : u.id = uid := findUser_id hu
    simp only [upgradePlan, hu]
    cases hai : u.activePlanInstance with
    | none => simp only; exact h
    | some iid =>
      simp only
      cases hoi : findInstance db iid with
      | none => simp only; exact h
      | some oldInst =>
        simp only
        cases hnp : findPlan db newPid with
        | none => simp only; exact h
        | some newPlan =>
          simp only
          cases hop : findPlan db oldInst.plan with
          | none => simp only; exact h
          | some oldPlan =>
            simp only
            split
            · exact h
            · split
              · exact h
              · rw [← hid]
                refine ledgerInvL_save_addTx db.users db.transactions
                  db.nextId (db.nextId + 1) u _ .investment
                  (-(newPlan.minAmount - oldPlan.minAmount)) none none
                  hL (Nat.le_succ _) rfl (findUser_mem hu) ?_
                  (fun hc => TxType.noConfusion hc)
                simp only [codeContribution]
                ring

theorem ledgerInv_collect (uid : Nat) (now : Int) (db : DB)
    (h : LedgerInv db) : LedgerInv (collectDailyProfit uid now db).1 := by
  have hL : LedgerInvL db.users db.transactions db.nextId := h
  cases hu : findUser db uid with
  | none => simp only [collectDailyProfit, hu]; exact h
  | some u =>
    have hid : u.id = uid := findUser_id hu
    simp only [collectDailyProfit, hu]
    cases hai : u.activePlanInstance with
    | none => simp only; exact h
    | some iid =>
      simp only
      cases hoi : findInstance db iid with
      | none => simp only; exact h
      | some inst =>
        simp only
        split
        · exact ledgerInvL_save_pure db.users db.transactions db.nextId
            u _ hL rfl (findUser_mem hu) rfl rfl
        · split
          · exact h
          · cases hinv : u.invitedBy with
            | none =>
              simp only [hinv]
              rw [← hid]
              refine ledgerInvL_save_addTx db.users db.transactions
                db.nextId db.nextId u _ .collection inst.dailyProfit
                none none hL (le_refl _) rfl (findUser_mem hu) ?_
                (fun hc => TxType.noConfusion hc)
              simp only [codeContribution]
              ring
            | some rid =>
              simp only [hinv]
              rw [← hid]
              refine ledgerInv_payCommission rid _ _ ?_
              refine ledgerInvL_save_addTx db.users db.transactions
                db.nextId db.nextId u _ .collection inst.dailyProfit
                none none hL (le_refl _) rfl (findUser_mem hu) ?_
                (fun hc => TxType.noConfusion hc)
              simp only [codeContribution]
              ring

theorem ledgerInv_renew (uid iid : Nat) (now : Int) (db : DB)
    (h : LedgerInv db) : LedgerInv (renewPlan uid iid now db).1 := by
  have hL : LedgerInvL db.users db.transactions db.nextId := h
  cases hu : findUser db uid with
  | none => simp only [renewPlan, hu]; exact h
  | some u =>
    have hid : u.id = uid := findUser_id hu
    simp only [renewPlan, hu]
    cases hoi : findInstance db iid with
    | none => simp only; exact h
    | some oldInst =>
      simp only
      split
      · exact h
      · split
        · exact h
        · split
          · exact h
          · cases hop : findPlan db oldInst.plan with
            | none => simp only; exact h
            | some plan =>
              simp only
              split
              · exact h
              · rw [← hid]
                refine ledgerInvL_save_addTx db.users db.transactions
                  db.nextId (db.nextId + 1) u _ .investment
                  (-plan.minAmount) none none hL (Nat.le_succ _) rfl
                  (findUser_mem hu) ?_
                  (fun hc => TxType.noConfusion hc)
                simp only [codeContribution]
                ring

theorem ledgerInv_step (c : Cmd) (db : DB) (h : LedgerInv db) :
    LedgerInv (step c db) := by
  cases c with
  | register inv => exact ledgerInv_register inv db h
  | newPlan a b v t d => exact ledgerInv_createPlan a b v t d db h
  | depositRequest uid a => exact ledgerInv_depositRequest uid a db h
  | depositApprove t => exact ledgerInv_approveDeposit t db h
  | depositReject t => exact ledgerInv_rejectDeposit t db h
  | withdrawRequest uid a => exact ledgerInv_withdrawRequest uid a db h
  | withdrawApprove t => exact ledgerInv_approveWithdrawal t db h
  | withdrawReject t => exact ledgerInv_rejectWithdrawal t db h
  | activate uid pid a n => exact ledgerInv_activate uid pid a n db h
  | collect uid n => exact ledgerInv_collect uid n db h
  | upgrade uid pid n => exact ledgerInv_upgrade uid pid n db h
  | renew uid iid n => exact ledgerInv_renew uid iid n db h

theorem ledgerInv_init (s : Settings) : LedgerInv (initDB s) := by
  constructor
  · exact fun u hu => absurd hu (List.not_mem_nil u)
  · exact fun t ht => absurd ht (List.not_mem_nil t)
  · exact fun t ht => absurd ht (List.not_mem_nil t)
  · exact List.Pairwise.nil
  · exact fun t ht => absurd ht (List.not_mem_nil t)
  · exact fun u hu => absurd hu (List.not_mem_nil u)

theorem ledgerInv_runTrace (s : Settings) (cs : List Cmd) :
    LedgerInv (runTrace s cs) := by
  rw [runTrace]
  have key : ∀ (l : List Cmd) (db : DB), LedgerInv db →
      LedgerInv (l.foldl (fun db c => step c db) db) := by
    intro l
    induction l with
    | nil => exact fun db hdb => hdb
    | cons c l ih =>
      intro db hdb
      exact ih _ (ledgerInv_step c db hdb)
  exact key cs _ (ledgerInv_init s)

/-- C3 (amended): on every reachable state, every account's wallet plus
bonus balance equals the sum over its ledger entries of approved
deposits, PLUS the absolute value of approved withdrawals, plus
collections, commissions and welcome bonuses, plus the (negative)
stored investment amounts. -/
theorem C3_ledger_balance (s : Settings) (cs : List Cmd) :
    ∀ u ∈ (runTrace s cs).users,
      ledgerSum codeContribution (runTrace s cs).transactions u.id =
        u.walletBalance + u.bonusBalance := by
  have hL : LedgerInvL (runTrace s cs).users (runTrace s cs).transactions
      (runTrace s cs).nextId := ledgerInv_runTrace s cs
  exact hL.balanced

/-- C3 witness: the amended ledger formula evaluated on the reachable
demonstration state gives account 0 exactly its wallet plus bonus
balance, 950. -/
theorem C3_witness :
    ledgerSum codeContribution
      (runTrace defaultSettings demoTraceApproved).transactions 0 =
      950 + 0 := by
  have hu : ({ id := 0, walletBalance := 950, bonusBalance := 0, invitedBy := none, activePlanInstance := some 4, hasDeposited := true, hasActivatedPlan := true } : User) ∈ (runTrace defaultSettings demoTraceApproved).users := by
    rw [show runTrace defaultSettings demoTraceApproved = demoDBApprovedLit
      from demoDBApproved_eq]
    exact List.mem_singleton.mpr rfl
  exact C3_ledger_balance defaultSettings demoTraceApproved _ hu

/-! Non-negativity of balances: helper lemmas for each way an operation
touches one component of the state, then per-operation preservation. -/

theorem computeDailyProfit_nonneg (yty : YieldType) (yv base : Rat)
    (hyv : 0 ≤ yv) (hbase : 0 ≤ base) :
    0 ≤ computeDailyProfit yty yv base := by
  cases yty with
  | fixed => exact hyv
  | percentage => exact div_nonneg (mul_nonneg hbase hyv) (by norm_num)

theorem bonusUsed_le (u : User) (amount : Rat) (hb : 0 ≤ u.bonusBalance) :
    bonusAmountUsedFor u amount ≤ u.bonusBalance := by
  rw [bonusAmountUsedFor]
  split
  · split
    · rename_i h1 h2
      exact h2
    · exact le_refl _
  · exact hb

theorem nonnegL_users_update {users : List User} {plans : List Plan}
    {instances : List PlanInstance} {txs : List Transaction}
    {s : Settings} {nu : User}
    (h : NonnegInvL users plans instances txs s)
    (hw : 0 ≤ nu.walletBalance) (hb : 0 ≤ nu.bonusBalance) :
    NonnegInvL (users.map (fun v => if v.id == nu.id then nu else v))
      plans instances txs s := by
  refine ⟨?_, ?_, h.planPos, h.instProfit, h.depNonneg, h.rates⟩
  · intro u hu
    rcases List.mem_map.mp hu with ⟨a, ha, hfa⟩
    split at hfa
    · exact hfa ▸ hw
    · exact hfa ▸ h.wallet a ha
  · intro u hu
    rcases List.mem_map.mp hu with ⟨a, ha, hfa⟩
    split at hfa
    · exact hfa ▸ hb
    · exact hfa ▸ h.bonus a ha

theorem nonnegL_users_append {users : List User} {plans : List Plan}
    {instances : List PlanInstance} {txs : List Transaction}
    {s : Settings} {nu : User}
    (h : NonnegInvL users plans instances txs s)
    (hw : 0 ≤ nu.walletBalance) (hb : 0 ≤ nu.bonusBalance) :
    NonnegInvL (users ++ [nu]) plans instances txs s := by
  refine ⟨?_, ?_, h.planPos, h.instProfit, h.depNonneg, h.rates⟩
  · intro u hu
    rcases List.mem_append.mp hu with hu' | hu'
    · exact h.wallet u hu'
    · rw [List.mem_singleton.mp hu']
      exact hw
  · intro u hu
    rcases List.mem_append.mp hu with hu' | hu'
    · exact h.bonus u hu'
    · rw [List.mem_singleton.mp hu']
      exact hb

theorem nonnegL_plans_append {users : List User} {plans : List Plan}
    {instances : List PlanInstance} {txs : List Transaction}
    {s : Settings} {p : Plan}
    (h : NonnegInvL users plans instances txs s)
    (hp : 0 < p.minAmount ∧ 0 < p.dailyYieldValue) :
    NonnegInvL users (plans ++ [p]) instances txs s := by
  refine ⟨h.wallet, h.bonus, ?_, h.instProfit, h.depNonneg, h.rates⟩
  intro q hq
  rcases List.mem_append.mp hq with hq' | hq'
  · exact h.planPos q hq'
  · rw [List.mem_singleton.mp hq']
    exact hp

theorem nonnegL_inst_append {users : List User} {plans : List Plan}
    {instances : List PlanInstance} {txs : List Transaction}
    {s : Settings} {i : PlanInstance}
    (h : NonnegInvL users plans instances txs s)
    (hp : 0 ≤ i.dailyProfit) :
    NonnegInvL users plans (instances ++ [i]) txs s := by
  refine ⟨h.wallet, h.bonus, h.planPos, ?_, h.depNonneg, h.rates⟩
  intro j hj
  rcases List.mem_append.mp hj with hj' | hj'
  · exact h.instProfit j hj'
  · rw [List.mem_singleton.mp hj']
    exact hp

theorem nonnegL_inst_update {users : List User} {plans : List Plan}
    {instances : List PlanInstance} {txs : List Transaction}
    {s : Settings} {ni : PlanInstance}
    (h : NonnegInvL users plans instances txs s)
    (hp : 0 ≤ ni.dailyProfit) :
    NonnegInvL users plans
      (instances.map (fun v => if v.id == ni.id then ni else v)) txs s := by
  refine ⟨h.wallet, h.bonus, h.planPos, ?_, h.depNonneg, h.rates⟩
  intro j hj
  rcases List.mem_map.mp hj with ⟨a, ha, hfa⟩
  split at hfa
  · exact hfa ▸ hp
  · exact hfa ▸ h.instProfit a ha

theorem nonnegL_txs_append {users : List User} {plans : List Plan}
    {instances : List PlanInstance} {txs : List Transaction}
    {s : Settings} {t : Transaction}
    (h : NonnegInvL users plans instances txs s)
    (hd : t.type = .deposit → 0 ≤ t.amount) :
    NonnegInvL users plans instances (txs ++ [t]) s := by
  refine ⟨h.wallet, h.bonus, h.planPos, h.instProfit, ?_, h.rates⟩
  intro x hx hty
  rcases List.mem_append.mp hx with hx' | hx'
  · exact h.depNonneg x hx' hty
  · rw [List.mem_singleton.mp hx'] at hty ⊢
    exact hd hty

theorem nonnegL_txs_update {users : List User} {plans : List Plan}
    {instances : List PlanInstance} {txs : List Transaction}
    {s : Settings} {t : Transaction}
    (h : NonnegInvL users plans instances txs s)
    (hd : t.type = .deposit → 0 ≤ t.amount) :
    NonnegInvL users plans instances
      (txs.map (fun x => if x.id == t.id then t else x)) s := by
  refine ⟨h.wallet, h.bonus, h.planPos, h.instProfit, ?_, h.rates⟩
  intro x hx hty
  rcases List.mem_map.mp hx with ⟨a, ha, hfa⟩
  split at hfa
  · rw [← hfa] at hty ⊢
    exact hd hty
  · rw [← hfa] at hty ⊢
    exact h.depNonneg a ha hty

theorem nonnegInv_payCommission (rid : Nat) (c : Rat) (db : DB)
    (hc : 0 ≤ c) (h : NonnegInv db) :
    NonnegInv (payCommission rid c db) := by
  have hL : NonnegInvL db.users db.plans db.instances db.transactions
      db.settings := h
  rw [payCommission]
  cases hr : findUser db rid with
  | none => exact h
  | some r =>
    simp only
    exact nonnegL_txs_append
      (nonnegL_users_update hL
        (add_nonneg (hL.wallet r (findUser_mem hr)) hc)
        (hL.bonus r (findUser_mem hr)))
      (fun hx => TxType.noConfusion hx)

theorem nonnegInv_register (inv : Option Nat) (db : DB)
    (h : NonnegInv db) : NonnegInv (registerUser inv db).1 := by
  have hL : NonnegInvL db.users db.plans db.instances db.transactions
      db.settings := h
  refine nonnegL_txs_append (nonnegL_users_append hL ?_ ?_) ?_
  · exact le_refl 0
  · simpa using hL.rates.1
  · exact fun hc => TxType.noConfusion hc

theorem nonnegInv_createPlan (a b v : Rat) (t : YieldType) (d : Nat)
    (db : DB) (h : NonnegInv db) :
    NonnegInv (createPlan a b v t d db).1 := by
  have hL : NonnegInvL db.users db.plans db.instances db.transactions
      db.settings := h
  rw [createPlan]
  split
  · exact h
  · rename_i hvalid
    push_neg at hvalid
    split
    · exact h
    · split
      · exact h
      · exact nonnegL_plans_append hL ⟨hvalid.1, hvalid.2.2.1⟩

theorem nonnegInv_depositRequest (uid : Nat) (a : Rat) (db : DB)
    (h : NonnegInv db) : NonnegInv (createDepositRequest uid a db).1 := by
  have hL : NonnegInvL db.users db.plans db.instances db.transactions
      db.settings := h
  rw [createDepositRequest]
  cases hu : findUser db uid with
  | none => exact h
  | some u =>
    simp only
    split
    · exact h
    · rename_i hpos
      split
      · exact h
      · exact nonnegL_txs_append hL (fun _ => (lt_of_not_le hpos).le)

theorem nonnegInv_approveDeposit (tid : Nat) (db : DB)
    (h : NonnegInv db) : NonnegInv (approveDeposit tid db).1 := by
  have hL : NonnegInvL db.users db.plans db.instances db.transactions
      db.settings := h
  rw [approveDeposit]
  cases htx : findTx db tid with
  | none => exact h
  | some tx =>
    simp only
    split
    · exact h
    · rename_i hval
      push_neg at hval
      cases hus : findUser db tx.user with
      | none => exact h
      | some user =>
        simp only
        exact nonnegL_txs_update
          (nonnegL_users_update hL
            (add_nonneg (hL.wallet user (findUser_mem hus))
              (hL.depNonneg tx (findTx_mem htx) hval.1))
            (hL.bonus user (findUser_mem hus)))
          (fun hty => hL.depNonneg tx (findTx_mem htx) hty)

theorem nonnegInv_rejectDeposit (tid : Nat) (db : DB)
    (h : NonnegInv db) : NonnegInv (rejectDeposit tid db).1 := by
  have hL : NonnegInvL db.users db.plans db.instances db.transactions
      db.settings := h
  rw [rejectDeposit]
  cases htx : findTx db tid with
  | none => exact h
  | some tx =>
    simp only
    split
    · exact h
    · exact nonnegL_txs_update hL
        (fun hty => hL.depNonneg tx (findTx_mem htx) hty)

theorem nonnegInv_withdrawRequest (uid : Nat) (a : Rat) (db : DB)
    (h : NonnegInv db) :
    NonnegInv (createWithdrawalRequest uid a db).1 := by
  have hL : NonnegInvL db.users db.plans db.instances db.transactions
      db.settings := h
  rw [createWithdrawalRequest]
  cases hu : findUser db uid with
  | none => exact h
  | some u =>
    simp only
    split
    · exact h
    · split
      · exact h
      · split
        · exact h
        · split
          · exact h
          · split
            · exact h
            · exact nonnegL_txs_append hL
                (fun hc => TxType.noConfusion hc)

theorem nonnegInv_approveWithdrawal (tid : Nat) (db : DB)
    (h : NonnegInv db) : NonnegInv (approveWithdrawal tid db).1 := by
  have hL : NonnegInvL db.users db.plans db.instances db.transactions
      db.settings := h
  rw [approveWithdrawal]
  cases htx : findTx db tid with
  | none => exact h
  | some tx =>
    simp only
    split
    · exact h
    · cases hus : findUser db tx.user with
      | none => exact h
      | some user =>
        simp only
        split
        · exact nonnegL_txs_update hL
            (fun hty => hL.depNonneg tx (findTx_mem htx) hty)
        · rename_i hguard
          exact nonnegL_txs_update
            (nonnegL_users_update hL
              (sub_nonneg.mpr (not_lt.mp hguard))
              (hL.bonus user (findUser_mem hus)))
            (fun hty => hL.depNonneg tx (findTx_mem htx) hty)

theorem nonnegInv_rejectWithdrawal (tid : Nat) (db : DB)
    (h : NonnegInv db) : NonnegInv (rejectWithdrawal tid db).1 := by
  have hL : NonnegInvL db.users db.plans db.instances db.transactions
      db.settings := h
  rw [rejectWithdrawal]
  cases htx : findTx db tid with
  | none => exact h
  | some tx =>
    simp only
    split
    · exact h
    · exact nonnegL_txs_update hL
        (fun hty => hL.depNonneg tx (findTx_mem htx) hty)

theorem nonnegInv_activate (uid pid : Nat) (amount : Rat) (now : Int)
    (db : DB) (h : NonnegInv db) :
    NonnegInv (activatePlan uid pid amount now db).1 := by
  have hL : NonnegInvL db.users db.plans db.instances db.transactions
      db.settings := h
  cases hu : findUser db uid with
  | none => simp only [activatePlan, hu]; exact h
  | some u =>
    simp only [activatePlan, hu]
    split
    · exact h
    · cases hp : findPlan db pid with
      | none => simp only [hp]; exact h
      | some plan =>
        simp only [hp]
        split
        · exact h
        · rename_i hrange
          push_neg at hrange
          split
          · exact h
          · rename_i hfunds
            have hamt : 0 ≤ amount :=
              le_of_lt (lt_of_lt_of_le
                (hL.planPos plan (findPlan_mem hp)).1 hrange.1)
            have hprof : 0 ≤ computeDailyProfit plan.dailyYieldType
                plan.dailyYieldValue amount :=
              computeDailyProfit_nonneg _ _ _
                (hL.planPos plan (findPlan_mem hp)).2.le hamt
            have hwal : 0 ≤ u.walletBalance -
                (amount - bonusAmountUsedFor u amount) :=
              sub_nonneg.mpr (not_lt.mp hfunds)
            have hbon : 0 ≤ u.bonusBalance - bonusAmountUsedFor u amount :=
              sub_nonneg.mpr
                (bonusUsed_le u amount (hL.bonus u (findUser_mem hu)))
            cases hinv : u.invitedBy with
            | none =>
              simp only [hinv]
              exact nonnegL_txs_append
                (nonnegL_users_update (nonnegL_inst_append hL hprof)
                  hwal hbon)
                (fun hc => TxType.noConfusion hc)
            | some rid =>
              simp only [hinv]
              refine nonnegInv_payCommission rid _ _ ?_ ?_
              · exact mul_nonneg hamt
                  (div_nonneg hL.rates.2.1 (by norm_num))
              · exact nonnegL_txs_append
                  (nonnegL_users_update (nonnegL_inst_append hL hprof)
                    hwal hbon)
                  (fun hc => TxType.noConfusion hc)

theorem nonnegInv_upgrade (uid newPid : Nat) (now : Int) (db : DB)
    (h : NonnegInv db) : NonnegInv (upgradePlan uid newPid now db).1 := by
  have hL : NonnegInvL db.users db.plans db.instances db.transactions
      db.settings := h
  cases hu : findUser db uid with
  | none => simp only [upgradePlan, hu]; exact h
  | some u =>
    simp only [upgradePlan, hu]
    cases hai : u.activePlanInstance with
    | none => simp only; exact h
    | some iid =>
      simp only
      cases hoi : findInstance db iid with
      | none => simp only; exact h
      | some oldInst =>
        simp only
        cases hnp : findPlan db newPid with
        | none => simp only; exact h
        | some newPlan =>
          simp only
          cases hop : findPlan db oldInst.plan with
          | none => simp only; exact h
          | some oldPlan =>
            simp only
            split
            · exact h
            · split
              · exact h
              · rename_i hnup hfunds
                exact nonnegL_txs_append
                  (nonnegL_users_update
                    (nonnegL_inst_append
                      (nonnegL_inst_update hL
                        (hL.instProfit oldInst (findInstance_mem hoi)))
                      (computeDailyProfit_nonneg _ _ _
                        (hL.planPos newPlan (findPlan_mem hnp)).2.le
                        (hL.planPos newPlan (findPlan_mem hnp)).1.le))
                    (sub_nonneg.mpr (not_lt.mp hfunds))
                    (hL.bonus u (findUser_mem hu)))
                  (fun hc => TxType.noConfusion hc)

theorem nonnegInv_collect (uid : Nat) (now : Int) (db : DB)
    (h : NonnegInv db) : NonnegInv (collectDailyProfit uid now db).1 := by
  have hL : NonnegInvL db.users db.plans db.instances db.transactions
      db.settings := h
  cases hu : findUser db uid with
  | none => simp only [collectDailyProfit, hu]; exact h
  | some u =>
    simp only [collectDailyProfit, hu]
    cases hai : u.activePlanInstance with
    | none => simp only; exact h
    | some iid =>
      simp only
      cases hoi : findInstance db iid with
      | none => simp only; exact h
      | some inst =>
        simp only
        split
        · exact nonnegL_users_update
            (nonnegL_inst_update hL
              (hL.instProfit inst (findInstance_mem hoi)))
            (hL.wallet u (findUser_mem hu))
            (hL.bonus u (findUser_mem hu))
        · split
          · exact h
          · have hprof : 0 ≤ inst.dailyProfit :=
              hL.instProfit inst (findInstance_mem hoi)
            cases hinv : u.invitedBy with
            | none =>
              simp only [hinv]
              exact nonnegL_txs_append
                (nonnegL_inst_update
                  (nonnegL_users_update hL
                    (add_nonneg (hL.wallet u (findUser_mem hu)) hprof)
                    (hL.bonus u (findUser_mem hu)))
                  hprof)
                (fun hc => TxType.noConfusion hc)
            | some rid =>
              simp only [hinv]
              refine nonnegInv_payCommission rid _ _ ?_ ?_
              · exact mul_nonneg hprof
                  (div_nonneg hL.rates.2.2 (by norm_num))
              · exact nonnegL_txs_append
                  (nonnegL_inst_update
                    (nonnegL_users_update hL
                      (add_nonneg (hL.wallet u (findUser_mem hu)) hprof)
                      (hL.bonus u (findUser_mem hu)))
                    hprof)
                  (fun hc => TxType.noConfusion hc)

theorem nonnegInv_renew (uid iid : Nat) (now : Int) (db : DB)
    (h : NonnegInv db) : NonnegInv (renewPlan uid iid now db).1 := by
  have hL : NonnegInvL db.users db.plans db.instances db.transactions
      db.settings := h
  cases hu : findUser db uid with
  | none => simp only [renewPlan, hu]; exact h
  | some u =>
    simp only [renewPlan, hu]
    cases hoi : findInstance db iid with
    | none => simp only; exact h
    | some oldInst =>
      simp only
      split
      · exact h
      · split
        · exact h
        · split
          · exact h
          · cases hop : findPlan db oldInst.plan with
            | none => simp only; exact h
            | some plan =>
              simp only
              split
              · exact h
              · rename_i hfunds
                exact nonnegL_txs_append
                  (nonnegL_users_update
                    (nonnegL_inst_append hL
                      (computeDailyProfit_nonneg _ _ _
                        (hL.planPos plan (findPlan_mem hop)).2.le
                        (hL.planPos plan (findPlan_mem hop)).1.le))
                    (sub_nonneg.mpr (not_lt.mp hfunds))
                    (hL.bonus u (findUser_mem hu)))
                  (fun hc => TxType.noConfusion hc)

theorem nonnegInv_step (c : Cmd) (db : DB) (h : NonnegInv db) :
    NonnegInv (step c db) := by
  cases c with
  | register inv => exact nonnegInv_register inv db h
  | newPlan a b v t d => exact nonnegInv_createPlan a b v t d db h
  | depositRequest uid a => exact nonnegInv_depositRequest uid a db h
  | depositApprove t => exact nonnegInv_approveDeposit t db h
  | depositReject t => exact nonnegInv_rejectDeposit t db h
  | withdrawRequest uid a => exact nonnegInv_withdrawRequest uid a db h
  | withdrawApprove t => exact nonnegInv_approveWithdrawal t db h
  | withdrawReject t => exact nonnegInv_rejectWithdrawal t db h
  | activate uid pid a n => exact nonnegInv_activate uid pid a n db h
  | collect uid n => exact nonnegInv_collect uid n db h
  | upgrade uid pid n => exact nonnegInv_upgrade uid pid n db h
  | renew uid iid n => exact nonnegInv_renew uid iid n db h

theorem nonnegInv_init (s : Settings) (h1 : 0 ≤ s.welcomeBonus)
    (h2 : 0 ≤ s.referralCommissionRate)
    (h3 : 0 ≤ s.dailyCommissionRate) : NonnegInv (initDB s) := by
  exact ⟨fun x hx => absurd hx (List.not_mem_nil x),
    fun x hx => absurd hx (List.not_mem_nil x),
    fun x hx => absurd hx (List.not_mem_nil x),
    fun x hx => absurd hx (List.not_mem_nil x),
    fun x hx => absurd hx (List.not_mem_nil x),
    ⟨h1, h2, h3⟩⟩

theorem nonnegInv_runTrace (s : Settings) (cs : List Cmd)
    (h1 : 0 ≤ s.welcomeBonus) (h2 : 0 ≤ s.referralCommissionRate)
    (h3 : 0 ≤ s.dailyCommissionRate) : NonnegInv (runTrace s cs) := by
  rw [runTrace]
  have key : ∀ (l : List Cmd) (db : DB), NonnegInv db →
      NonnegInv (l.foldl (fun db c => step c db) db) := by
    intro l
    induction l with
    | nil => exact fun db hdb => hdb
    | cons c l ih =>
      intro db hdb
      exact ih _ (nonnegInv_step c db hdb)
  exact key cs _ (nonnegInv_init s h1 h2 h3)

/-- C4: with non-negative configured welcome bonus and commission rates,
every account on every reachable state has non-negative walletBalance
and non-negative bonusBalance: each operation validates funds before
debiting and only ever credits non-negative amounts. -/
theorem C4_balances_nonneg (s : Settings) (cs : List Cmd)
    (h1 : 0 ≤ s.welcomeBonus) (h2 : 0 ≤ s.referralCommissionRate)
    (h3 : 0 ≤ s.dailyCommissionRate) :
    ∀ u ∈ (runTrace s cs).users,
      0 ≤ u.walletBalance ∧ 0 ≤ u.bonusBalance := by
  have hL : NonnegInvL (runTrace s cs).users (runTrace s cs).plans
      (runTrace s cs).instances (runTrace s cs).transactions
      (runTrace s cs).settings := nonnegInv_runTrace s cs h1 h2 h3
  exact fun u hu => ⟨hL.wallet u hu, hL.bonus u hu⟩

/-- C4 witness: on the reachable demonstration state under the default
settings, account 0's balances (950 and 0) are non-negative. -/
theorem C4_witness : 0 ≤ (950 : Rat) ∧ 0 ≤ (0 : Rat) := by
  have hu : ({ id := 0, walletBalance := 950, bonusBalance := 0, invitedBy := none, activePlanInstance := some 4, hasDeposited := true, hasActivatedPlan := true } : User) ∈ (runTrace defaultSettings demoTraceApproved).users := by
    rw [show runTrace defaultSettings demoTraceApproved = demoDBApprovedLit
      from demoDBApproved_eq]
    exact List.mem_singleton.mpr rfl
  exact C4_balances_nonneg defaultSettings demoTraceApproved
    (by norm_num [defaultSettings]) (by norm_num [defaultSettings])
    (by norm_num [defaultSettings]) _ hu

/-! Terminality of expiry: helper lemmas about how each operation can
touch the instance list, then the claim itself. -/

theorem inst_eq_of_id (l : List PlanInstance)
    (hd : l.Pairwise (fun a b => a.id ≠ b.id)) (a b : PlanInstance)
    (ha : a ∈ l) (hb : b ∈ l) (hid : a.id = b.id) : a = b := by
  induction l with
  | nil => cases ha
  | cons x xs ih =>
    rcases List.mem_cons.mp ha with rfl | ha'
    · rcases List.mem_cons.mp hb with rfl | hb'
      · rfl
      · exact absurd hid ((List.pairwise_cons.mp hd).1 b hb')
    · rcases List.mem_cons.mp hb with rfl | hb'
      · exact absurd hid.symm ((List.pairwise_cons.mp hd).1 a ha')
      · exact ih (List.pairwise_cons.mp hd).2 ha' hb'

theorem expired_in_update (l : List PlanInstance)
    (hd : l.Pairwise (fun a b => a.id ≠ b.id)) (i old ni : PlanInstance)
    (hi : i ∈ l) (hold : old ∈ l) (hexp : i.status = .expired)
    (hid : ni.id = old.id)
    (hst : old.status = .expired → ni.status = .expired) :
    ∃ i', i' ∈ l.map (fun v => if v.id == ni.id then ni else v) ∧
      i'.id = i.id ∧ i'.status = .expired := by
  by_cases hc : i.id = ni.id
  · have hio : i = old := inst_eq_of_id l hd i old hi hold (hc.trans hid)
    have hcc : (i.id == ni.id) = true := beq_iff_eq.mpr hc
    refine ⟨ni, List.mem_map.mpr ⟨i, hi, by rw [if_pos hcc]⟩, ?_,
      hst (hio ▸ hexp)⟩
    rw [hid, hio]
  · have hnc : ¬((i.id == ni.id) = true) :=
      fun hcc => hc (beq_iff_eq.mp hcc)
    exact ⟨i, List.mem_map.mpr ⟨i, hi, by rw [if_neg hnc]⟩, rfl, hexp⟩

theorem instances_payCommission (rid : Nat) (c : Rat) (db : DB) :
    (payCommission rid c db).instances = db.instances := by
  rw [payCommission]
  cases findUser db rid with
  | none => rfl
  | some r => rfl

theorem mem_instances_payCommission {i : PlanInstance} (rid : Nat)
    (c : Rat) (db : DB) (h : i ∈ db.instances) :
    i ∈ (payCommission rid c db).instances := by
  rw [instances_payCommission]
  exact h

theorem activate_instances_mono (uid pid : Nat) (a : Rat) (now : Int)
    (db : DB) (i : PlanInstance) (hi : i ∈ db.instances) :
    i ∈ (activatePlan uid pid a now db).1.instances := by
  cases hu : findUser db uid with
  | none => simp only [activatePlan, hu]; exact hi
  | some u =>
    simp only [activatePlan, hu]
    split
    · exact hi
    · cases hp : findPlan db pid with
      | none => simp only [hp]; exact hi
      | some plan =>
        simp only [hp]
        split
        · exact hi
        · split
          · exact hi
          · cases u.invitedBy with
            | none => exact List.mem_append_left _ hi
            | some rid =>
              exact mem_instances_payCommission rid _ _
                (List.mem_append_left _ hi)

theorem renew_instances_mono (uid iid : Nat) (now : Int) (db : DB)
    (i : PlanInstance) (hi : i ∈ db.instances) :
    i ∈ (renewPlan uid iid now db).1.instances := by
  rw [renewPlan]
  cases findUser db uid with
  | none => exact hi
  | some user =>
    simp only
    cases findInstance db iid with
    | none => exact hi
    | some oldInst =>
      simp only
      split
      · exact hi
      · split
        · exact hi
        · split
          · exact hi
          · cases findPlan db oldInst.plan with
            | none => exact hi
            | some plan =>
              simp only
              split
              · exact hi
              · exact List.mem_append_left _ hi

theorem collect_expired_preserved (uid : Nat) (now : Int) (db : DB)
    (hd : db.instances.Pairwise (fun a b => a.id ≠ b.id))
    (i : PlanInstance) (hi : i ∈ db.instances)
    (hexp : i.status = .expired) :
    ∃ i', i' ∈ (collectDailyProfit uid now db).1.instances ∧
      i'.id = i.id ∧ i'.status = .expired := by
  cases hu : findUser db uid with
  | none => simp only [collectDailyProfit, hu]; exact ⟨i, hi, rfl, hexp⟩
  | some u =>
    simp only [collectDailyProfit, hu]
    cases hai : u.activePlanInstance with
    | none => exact ⟨i, hi, rfl, hexp⟩
    | some iid =>
      simp only
      cases hoi : findInstance db iid with
      | none => exact ⟨i, hi, rfl, hexp⟩
      | some inst =>
        simp only
        split
        · exact expired_in_update db.instances hd i inst
            { inst with status := InstStatus.expired } hi
            (findInstance_mem hoi) hexp rfl (fun _ => rfl)
        · split
          · exact ⟨i, hi, rfl, hexp⟩
          · cases hinv : u.invitedBy with
            | none =>
              simp only [hinv]
              exact expired_in_update db.instances hd i inst { inst with lastCollectedDate := some now, totalCollected := inst.totalCollected + inst.dailyProfit } hi (findInstance_mem hoi) hexp rfl (fun hh => hh)
            | some rid =>
              simp only [hinv]
              rcases expired_in_update db.instances hd i inst { inst with lastCollectedDate := some now, totalCollected := inst.totalCollected + inst.dailyProfit } hi (findInstance_mem hoi) hexp rfl (fun hh => hh) with
                ⟨i', hmem, hids, hsts⟩
              exact ⟨i', mem_instances_payCommission rid _ _ hmem,
                hids, hsts⟩

theorem upgrade_expired_preserved (uid pid : Nat) (now : Int) (db : DB)
    (hd : db.instances.Pairwise (fun a b => a.id ≠ b.id))
    (i : PlanInstance) (hi : i ∈ db.instances)
    (hexp : i.status = .expired) :
    ∃ i', i' ∈ (upgradePlan uid pid now db).1.instances ∧
      i'.id = i.id ∧ i'.status = .expired := by
  cases hu : findUser db uid with
  | none => simp only [upgradePlan, hu]; exact ⟨i, hi, rfl, hexp⟩
  | some u =>
    simp only [upgradePlan, hu]
    cases hai : u.activePlanInstance with
    | none => exact ⟨i, hi, rfl, hexp⟩
    | some iid =>
      simp only
      cases hoi : findInstance db iid with
      | none => exact ⟨i, hi, rfl, hexp⟩
      | some oldInst =>
        simp only
        cases hnp : findPlan db pid with
        | none => exact ⟨i, hi, rfl, hexp⟩
        | some newPlan =>
          simp only
          cases hop : findPlan db oldInst.plan with
          | none => exact ⟨i, hi, rfl, hexp⟩
          | some oldPlan =>
            simp only
            split
            · exact ⟨i, hi, rfl, hexp⟩
            · split
              · exact ⟨i, hi, rfl, hexp⟩
              · rcases expired_in_update db.instances hd i oldInst
                  { oldInst with status := InstStatus.expired } hi
                  (findInstance_mem hoi) hexp rfl (fun _ => rfl) with
                  ⟨i', hmem, hids, hsts⟩
                exact ⟨i', List.mem_append_left _ hmem, hids, hsts⟩

/-- C8: expiry is terminal.  On a state whose instance ids are
well-formed (below the fresh-id counter and pairwise distinct), any
single request leaves, for each expired instance, an instance with the
same id still stored and still expired -- no operation flips an expired
instance back to active.  Moreover a successful renewal appends a
brand-new active instance with a fresh startDate and a fresh id while
leaving every previously stored instance, the expired one included,
exactly as it was. -/
theorem C8_expiry_terminal (c : Cmd) (db : DB) (h : InstIdInv db)
    (i : PlanInstance) (hi : i ∈ db.instances)
    (hexp : i.status = .expired) :
    (∃ i', i' ∈ (step c db).instances ∧ i'.id = i.id ∧
      i'.status = .expired) ∧
    (∀ uid iid now, (renewPlan uid iid now db).2 = .ok () →
      ∃ ni, (renewPlan uid iid now db).1.instances =
          db.instances ++ [ni] ∧
        ni.startDate = now ∧ ni.status = .active ∧
        ni ∉ db.instances) := by
  have hI : InstIdInvL db.instances db.nextId := h
  constructor
  · cases c with
    | register inv => exact ⟨i, hi, rfl, hexp⟩
    | newPlan a b v t d =>
      simp only [step]
      rw [createPlan]
      split
      · exact ⟨i, hi, rfl, hexp⟩
      · split
        · exact ⟨i, hi, rfl, hexp⟩
        · split
          · exact ⟨i, hi, rfl, hexp⟩
          · exact ⟨i, hi, rfl, hexp⟩
    | depositRequest uid a =>
      simp only [step]
      rw [createDepositRequest]
      cases findUser db uid with
      | none => exact ⟨i, hi, rfl, hexp⟩
      | some u =>
        simp only
        split
        · exact ⟨i, hi, rfl, hexp⟩
        · split
          · exact ⟨i, hi, rfl, hexp⟩
          · exact ⟨i, hi, rfl, hexp⟩
    | depositApprove t =>
      simp only [step]
      rw [approveDeposit]
      cases findTx db t with
      | none => exact ⟨i, hi, rfl, hexp⟩
      | some tx =>
        simp only
        split
        · exact ⟨i, hi, rfl, hexp⟩
        · cases findUser db tx.user with
          | none => exact ⟨i, hi, rfl, hexp⟩
          | some user => exact ⟨i, hi, rfl, hexp⟩
    | depositReject t =>
      simp only [step]
      rw [rejectDeposit]
      cases findTx db t with
      | none => exact ⟨i, hi, rfl, hexp⟩
      | some tx =>
        simp only
        split
        · exact ⟨i, hi, rfl, hexp⟩
        · exact ⟨i, hi, rfl, hexp⟩
    | withdrawRequest uid a =>
      simp only [step]
      rw [createWithdrawalRequest]
      cases findUser db uid with
      | none => exact ⟨i, hi, rfl, hexp⟩
      | some u =>
        simp only
        split
        · exact ⟨i, hi, rfl, hexp⟩
        · split
          · exact ⟨i, hi, rfl, hexp⟩
          · split
            · exact ⟨i, hi, rfl, hexp⟩
            · split
              · exact ⟨i, hi, rfl, hexp⟩
              · split
                · exact ⟨i, hi, rfl, hexp⟩
                · exact ⟨i, hi, rfl, hexp⟩
    | withdrawApprove t =>
      simp only [step]
      rw [approveWithdrawal]
      cases findTx db t with
      | none => exact ⟨i, hi, rfl, hexp⟩
      | some tx =>
        simp only
        split
        · exact ⟨i, hi, rfl, hexp⟩
        · cases findUser db tx.user with
          | none => exact ⟨i, hi, rfl, hexp⟩
          | some user =>
            simp only
            split
            · exact ⟨i, hi, rfl, hexp⟩
            · exact ⟨i, hi, rfl, hexp⟩
    | withdrawReject t =>
      simp only [step]
      rw [rejectWithdrawal]
      cases findTx db t with
      | none => exact ⟨i, hi, rfl, hexp⟩
      | some tx =>
        simp only
        split
        · exact ⟨i, hi, rfl, hexp⟩
        · exact ⟨i, hi, rfl, hexp⟩
    | activate uid pid a n =>
      exact ⟨i, activate_instances_mono uid pid a n db i hi, rfl, hexp⟩
    | collect uid n =>
      exact collect_expired_preserved uid n db hI.distinct i hi hexp
    | upgrade uid pid n =>
      exact upgrade_expired_preserved uid pid n db hI.distinct i hi hexp
    | renew uid iid n =>
      exact ⟨i, renew_instances_mono uid iid n db i hi, rfl, hexp⟩
  · intro uid iid now hok
    cases hu : findUser db uid with
    | none => simp [renewPlan, hu] at hok
    | some user =>
      simp only [renewPlan, hu] at hok ⊢
      cases hoi : findInstance db iid with
      | none => simp [hoi] at hok
      | some oldInst =>
        simp only [hoi] at hok ⊢
        by_cases hc1 : oldInst.user ≠ uid
        · rw [if_pos hc1] at hok
          simp at hok
        · rw [if_neg hc1] at hok ⊢
          by_cases hc2 : oldInst.status ≠ InstStatus.expired
          · rw [if_pos hc2] at hok
            simp at hok
          · rw [if_neg hc2] at hok ⊢
            by_cases hc3 : user.activePlanInstance.isSome = true
            · rw [if_pos hc3] at hok
              simp at hok
            · rw [if_neg hc3] at hok ⊢
              cases hop : findPlan db oldInst.plan with
              | none => simp [hop] at hok
              | some plan =>
                simp only [hop] at hok ⊢
                by_cases hc4 : user.walletBalance < plan.minAmount
                · rw [if_pos hc4] at hok
                  simp at hok
                · rw [if_neg hc4] at hok ⊢
                  refine ⟨newInstanceFor db.nextId uid oldInst.plan
                    plan.minAmount
                    (computeDailyProfit plan.dailyYieldType
                      plan.dailyYieldValue plan.minAmount) now
                    plan.durationDays, rfl, rfl, rfl, ?_⟩
                  intro hmem
                  exact absurd (hI.lt _ hmem) (Nat.lt_irrefl db.nextId)

/-- C8 witness: the reachable expired-demonstration state has
well-formed instance ids, and serving a renewal request on it keeps an
instance with id 4 stored and expired. -/
theorem C8_witness :
    InstIdInv expiredDBLit ∧
    (∃ i', i' ∈ (step (Cmd.renew 0 4 2592000002) expiredDBLit).instances ∧
      i'.id = 4 ∧ i'.status = InstStatus.expired) := by
  have hI : InstIdInv expiredDBLit := by
    refine ⟨?_, ?_⟩
    · decide
    · exact List.pairwise_singleton _ _
  refine ⟨hI, ?_⟩
  have hmem : ({ id := 4, user := 0, plan := 2, investedAmount := 300, dailyProfit := 10, startDate := 0, endDate := 2592000000, lastCollectedDate := none, totalCollected := 0, status := .expired } : PlanInstance) ∈ expiredDBLit.instances :=
    List.mem_singleton.mpr rfl
  exact (C8_expiry_terminal (Cmd.renew 0 4 2592000002) expiredDBLit hI
    _ hmem rfl).1

end Daksk
